import Mathlib

/-!
Verification of the resumify heuristic résumé-parsing engine (`src/main.py`).

The engine is embedded shallowly: Python strings become `List Char`,
`Optional[str]` becomes `Option (List Char)`, Python floats used only as
confidence literals become `ℚ`, `int` scores become `ℤ`.  Regular-expression
calls are modelled by hand-written scanners that reproduce the leftmost /
greedy / non-overlapping semantics of the concrete patterns used by the code
(the patterns are all small and literal-based).  Character classes are
modelled at the ASCII level (`\s`, `\w`, `str.lower`, `str.strip`), and
`str.splitlines` is modelled as splitting on `'\n'`, the only line break
produced by the text-extraction stage.
-/

namespace Resumify

abbrev Str := List Char

/-- ASCII decimal digit, models the regex class `\d`. -/
def isDigit (c : Char) : Bool := decide ('0' ≤ c ∧ c ≤ '9')

/-- ASCII letter, models the regex class `[A-Za-z]`. -/
def isAlpha (c : Char) : Bool :=
  decide (('a' ≤ c ∧ c ≤ 'z') ∨ ('A' ≤ c ∧ c ≤ 'Z'))

/-- Word character, models the regex class `\w`. -/
def isWordChar (c : Char) : Bool := isDigit c || isAlpha c || decide (c = '_')

/-- Whitespace, models `str.strip()` / the regex class `\s`. -/
def isWs (c : Char) : Bool :=
  decide (c = ' ' ∨ c = '\t' ∨ c = '\n' ∨ c = '\r' ∨ c = '\x0b' ∨ c = '\x0c')

/-- ASCII lower-casing of one character, models `str.lower` / `re.IGNORECASE`. -/
def lowerChar (c : Char) : Char :=
  if 'A' ≤ c ∧ c ≤ 'Z' then Char.ofNat (c.toNat + 32) else c

def lowerStr (s : Str) : Str := s.map lowerChar

def isPrefixL : Str → Str → Bool
  | [], _ => true
  | _ :: _, [] => false
  | a :: as, b :: bs => a = b && isPrefixL as bs

/-- `containsSub hay needle` models Python `needle in hay` (substring test). -/
def containsSub : Str → Str → Bool
  | [], needle => isPrefixL needle []
  | c :: t, needle => isPrefixL needle (c :: t) || containsSub t needle

/-- Strip characters satisfying `p` from both ends, models `str.strip(...)`. -/
def stripIf (p : Char → Bool) (s : Str) : Str :=
  ((s.dropWhile p).reverse.dropWhile p).reverse

def stripWS (s : Str) : Str := stripIf isWs s

/-- Models `line.strip(chars)` with an explicit character set. -/
def stripSet (set : Str) (s : Str) : Str := stripIf (fun c => set.contains c) s

/-- Split on `'\n'`, models `str.splitlines` for newline-separated text. -/
def splitNl : Str → List Str
  | [] => [[]]
  | c :: cs =>
    if c = '\n' then [] :: splitNl cs
    else
      match splitNl cs with
      | s :: ss => (c :: s) :: ss
      | [] => [[c]]

/-- Models `[l.strip() for l in s.splitlines() if l.strip()]`. -/
def linesOf (s : Str) : List Str :=
  ((splitNl s).map stripWS).filter (fun l => !l.isEmpty)

/-- Models `"\n".join(lines)`. -/
def joinNl : List Str → Str
  | [] => []
  | [l] => l
  | l :: l2 :: ls => l ++ '\n' :: joinNl (l2 :: ls)

/-- Worker for `splitBlank`.  `pending` counts the newlines read but not yet
committed, `acc` holds the current piece reversed.  A maximal run of ≥ 2
newlines is a separator (one `\n{2,}` match); a single newline is content. -/
def splitBlankGo : Nat → Str → Str → List Str
  | pending, acc, [] =>
    if 2 ≤ pending then [acc.reverse, []]
    else if pending = 1 then [('\n' :: acc).reverse]
    else [acc.reverse]
  | pending, acc, c :: cs =>
    if c = '\n' then splitBlankGo (pending + 1) acc cs
    else if 2 ≤ pending then acc.reverse :: splitBlankGo 0 [c] cs
    else if pending = 1 then splitBlankGo 0 (c :: '\n' :: acc) cs
    else splitBlankGo 0 (c :: acc) cs

/-- Models `re.split(r"\n{2,}", s)`: split on maximal runs of ≥ 2 newlines. -/
def splitBlank (s : Str) : List Str := splitBlankGo 0 [] s

/-- Matches of `(?:19|20)\d{2}` in order, models `YEAR_PATTERN.findall`. -/
def findallYears : Str → List Str
  | a :: b :: c :: d :: rest =>
    if ((a = '1' && b = '9') || (a = '2' && b = '0')) && isDigit c && isDigit d then
      [a, b, c, d] :: findallYears rest
    else findallYears (b :: c :: d :: rest)
  | _ => []

def isWordOpt : Option Char → Bool
  | none => false
  | some c => isWordChar c

/-- Worker for `findallTwoDigit`; `prev` is the character before the cursor. -/
def findallTwoDigitGo : Option Char → Str → List Str
  | prev, a :: b :: rest =>
    if isDigit a && isDigit b && !isWordOpt prev && !isWordOpt rest.head? then
      [a, b] :: findallTwoDigitGo (some b) rest
    else findallTwoDigitGo (some a) (b :: rest)
  | _, _ => []

/-- Matches of `\b(\d{2})\b` in order, models `TWO_DIGIT_YEAR_PATTERN.findall`. -/
def findallTwoDigit (s : Str) : List Str := findallTwoDigitGo none s

/-- Models `re.search(r"present|current|now", s, re.IGNORECASE)` as well as the
`in end_lower` membership tests of `_normalize_year_pair`. -/
def hasPresentWord (s : Str) : Bool :=
  containsSub (lowerStr s) (("present").data) ||
  containsSub (lowerStr s) (("current").data) ||
  containsSub (lowerStr s) (("now").data)

/-- Python truthiness of an optional string: present and non-empty. -/
def truthyO : Option Str → Bool
  | none => false
  | some s => !s.isEmpty

/-- The string held by an optional value; only read under a truthiness guard,
mirroring how the Python code dereferences `start` / `end`. -/
def getO : Option Str → Str
  | none => []
  | some s => s

/-- Embeds `_normalize_year_pair` from `src/main.py`. -/
def _normalize_year_pair (start e : Option Str) : Option Str × Option Str :=
  if !truthyO start && !truthyO e then (none, none)
  else
    let e1 : Option Str :=
      if truthyO e && hasPresentWord (getO e) then some (("Present").data) else e
    let e2 : Option Str :=
      if truthyO start && truthyO e1 && (getO e1).length = 2 && (getO start).length = 4 &&
          (isPrefixL (("19").data) (getO start) || isPrefixL (("20").data) (getO start)) then
        some ((getO start).take 2 ++ getO e1)
      else e1
    (start, e2)

/-- Embeds `_parse_date_range` from `src/main.py`. -/
def _parse_date_range (text_block : Str) : Option Str × Option Str :=
  match findallYears text_block with
  | y0 :: ytail =>
    match ytail with
    | y1 :: _ => _normalize_year_pair (some y0) (some y1)
    | [] =>
      match (findallTwoDigit text_block).getLast? with
      | some t => _normalize_year_pair (some y0) (some t)
      | none =>
        if hasPresentWord text_block then
          _normalize_year_pair (some y0) (some (("Present").data))
        else _normalize_year_pair (some y0) none
  | [] =>
    match (findallTwoDigit text_block).getLast? with
    | some t => _normalize_year_pair none (some t)
    | none =>
      if hasPresentWord text_block then (none, some (("Present").data))
      else (none, none)

theorem hasPresentWord_nil : hasPresentWord [] = false := by decide

/-- A string satisfying `hasPresentWord` is non-empty, so it is Python-truthy. -/
theorem truthy_of_hasPresentWord (e0 : Str) (hp : hasPresentWord e0 = true) :
    (!e0.isEmpty && hasPresentWord e0) = true := by
  rcases e0 with _ | ⟨c, cs⟩
  · exact absurd hp (by simp [hasPresentWord_nil])
  · simp [List.isEmpty, hp]

/-- A four-character string whose first two characters are "19" or "20"
contains none of present/current/now. -/
theorem hasPresentWord_completed (s0 s1 a b : Char)
    (h : (s0 = '1' ∧ s1 = '9') ∨ (s0 = '2' ∧ s1 = '0')) :
    hasPresentWord [s0, s1, a, b] = false := by
  have l1 : lowerChar '1' = '1' := by decide
  have l9 : lowerChar '9' = '9' := by decide
  have l2 : lowerChar '2' = '2' := by decide
  have l0 : lowerChar '0' = '0' := by decide
  rcases h with ⟨h1, h2⟩ | ⟨h1, h2⟩ <;> subst h1 <;> subst h2 <;>
    simp [hasPresentWord, lowerStr, containsSub, isPrefixL, l1, l9, l2, l0]

/-- Any end value produced by `_normalize_year_pair` that contains
present/current/now is exactly `"Present"`. -/
theorem normalize_end_present (s e : Option Str) (x : Str)
    (h : (_normalize_year_pair s e).2 = some x) (hp : hasPresentWord x = true) :
    x = ("Present").data := by
  unfold _normalize_year_pair at h
  by_cases h0 : (!truthyO s && !truthyO e) = true
  · rw [if_pos h0] at h; simp at h
  · rw [if_neg h0] at h
    dsimp only at h
    by_cases hw : (truthyO e && hasPresentWord (getO e)) = true
    · rw [if_pos hw] at h
      by_cases hc : (truthyO s && truthyO (some (("Present").data)) &&
          (getO (some (("Present").data))).length = 2 && (getO s).length = 4 &&
          (isPrefixL (("19").data) (getO s) || isPrefixL (("20").data) (getO s))) = true
      · exfalso
        simp only [Bool.and_eq_true, decide_eq_true_eq] at hc
        obtain ⟨⟨⟨⟨hts, hte⟩, hl2⟩, hl4⟩, hpre⟩ := hc
        exact absurd hl2 (by decide)
      · rw [if_neg hc] at h
        exact (Option.some_inj.mp h).symm
    · rw [if_neg hw] at h
      by_cases hc : (truthyO s && truthyO e && (getO e).length = 2 && (getO s).length = 4 &&
          (isPrefixL (("19").data) (getO s) || isPrefixL (("20").data) (getO s))) = true
      · rw [if_pos hc] at h
        have hx : (getO s).take 2 ++ getO e = x := Option.some_inj.mp h
        exfalso
        simp only [Bool.and_eq_true, Bool.or_eq_true, decide_eq_true_eq] at hc
        obtain ⟨⟨⟨⟨hts, hte⟩, hl2⟩, hl4⟩, hpre⟩ := hc
        rcases s with _ | st
        · exact absurd hts (by simp [truthyO])
        rcases e with _ | e0
        · exact absurd hte (by simp [truthyO])
        simp only [getO] at hx hl2 hl4 hpre
        rcases e0 with _ | ⟨a, e0t⟩
        · simp at hl2
        rcases e0t with _ | ⟨b, e0t⟩
        · simp at hl2
        rcases e0t with _ | ⟨c, e0t⟩
        · have hshape : ∃ s0 s1 t, st = s0 :: s1 :: t ∧
              ((s0 = '1' ∧ s1 = '9') ∨ (s0 = '2' ∧ s1 = '0')) := by
            rcases hpre with hpre | hpre <;>
              ( rcases st with _ | ⟨u0, stt⟩
                · simp [isPrefixL] at hpre
                · rcases stt with _ | ⟨u1, stt⟩
                  · simp [isPrefixL] at hpre
                  · refine ⟨u0, u1, stt, rfl, ?_⟩
                    simp only [isPrefixL, Bool.and_eq_true, decide_eq_true_eq] at hpre
                    first
                    | exact Or.inl ⟨hpre.1.symm, hpre.2.1.symm⟩
                    | exact Or.inr ⟨hpre.1.symm, hpre.2.1.symm⟩ )
          obtain ⟨s0, s1, t, hst2, hdig⟩ := hshape
          subst hst2
          have hx2 : x = [s0, s1, a, b] := by
            rw [← hx]; simp [List.take]
          rw [hx2] at hp
          exact absurd hp (by simp [hasPresentWord_completed s0 s1 a b hdig])
        · simp at hl2
      · rw [if_neg hc] at h
        rcases e with _ | e0
        · simp at h
        have hx : e0 = x := Option.some_inj.mp h
        subst hx
        exact absurd (by
            simp only [truthyO, getO]
            exact truthy_of_hasPresentWord e0 hp) hw

/-- The end value returned by `_parse_date_range`, when it contains
present/current/now, is exactly `"Present"`. -/
theorem parse_date_range_end_present (tb : Str) (s : Option Str) (x : Str)
    (h : _parse_date_range tb = (s, some x)) (hp : hasPresentWord x = true) :
    x = ("Present").data := by
  rcases hys : findallYears tb with _ | ⟨y0, ytail⟩
  · rcases htd : (findallTwoDigit tb).getLast? with _ | t
    · simp only [_parse_date_range, hys, htd] at h
      by_cases hpw : hasPresentWord tb = true
      · rw [if_pos hpw] at h
        have h2 : (some (("Present").data) : Option Str) = some x := congrArg Prod.snd h
        exact (Option.some_inj.mp h2).symm
      · rw [if_neg hpw] at h
        exact absurd (congrArg Prod.snd h : (none : Option Str) = some x) (by simp)
    · simp only [_parse_date_range, hys, htd] at h
      exact normalize_end_present none (some t) x (by rw [h]) hp
  · rcases ytail with _ | ⟨y1, yrest⟩
    · rcases htd : (findallTwoDigit tb).getLast? with _ | t
      · simp only [_parse_date_range, hys, htd] at h
        by_cases hpw : hasPresentWord tb = true
        · rw [if_pos hpw] at h
          exact normalize_end_present (some y0) (some (("Present").data)) x (by rw [h]) hp
        · rw [if_neg hpw] at h
          exact normalize_end_present (some y0) none x (by rw [h]) hp
      · simp only [_parse_date_range, hys, htd] at h
        exact normalize_end_present (some y0) (some t) x (by rw [h]) hp
    · simp only [_parse_date_range, hys] at h
      exact normalize_end_present (some y0) (some y1) x (by rw [h]) hp

/-- C1: the date range resolver satisfies the spec's four round-trip equalities
(`"2017 - 2020"` ↦ `("2017","2020")`, `"2017 - Present"` ↦ `("2017","Present")`,
`"2017 - 20"` ↦ `("2017","2020")` by century completion, `"no dates here"` ↦
`(null, null)`), and for every input block any resolved end string containing
present/current/now (case-insensitively) is exactly `"Present"`. -/
theorem claim_C1 :
    _parse_date_range (("2017 - 2020").data) = (some (("2017").data), some (("2020").data)) ∧
    _parse_date_range (("2017 - Present").data) = (some (("2017").data), some (("Present").data)) ∧
    _parse_date_range (("2017 - 20").data) = (some (("2017").data), some (("2020").data)) ∧
    _parse_date_range (("no dates here").data) = (none, none) ∧
    ∀ (block : Str) (s : Option Str) (e : Str),
      _parse_date_range block = (s, some e) → hasPresentWord e = true →
        e = ("Present").data := by
  refine ⟨by decide, by decide, by decide, by decide, ?_⟩
  intro block s e h hp
  exact parse_date_range_end_present block s e h hp

/-- Witness for C1: the general present/current/now clause applied at the
concrete block `"2017 - Present"`. -/
theorem claim_C1_witness :
    _parse_date_range (("2017 - Present").data) =
      (some (("2017").data), some (("Present").data)) ∧
    ("Present").data = ("Present").data :=
  ⟨by decide,
   claim_C1.2.2.2.2 (("2017 - Present").data) (some (("2017").data)) (("Present").data)
     (by decide) (by decide)⟩

/-- Case-insensitive match of the lower-case literal `lit` at the head of `s`;
returns the remainder after the match.  Models one position of a
`re.IGNORECASE` literal alternative. -/
def ciStripLit : Str → Str → Option Str
  | [], s => some s
  | _ :: _, [] => none
  | l :: ls, c :: cs => if lowerChar c = l then ciStripLit ls cs else none

/-- Models `re.split(r"(?i)work experience|professional experience|experience",
s, maxsplit=1)`: leftmost match wins, alternatives are tried in pattern order
at each position.  Returns the parts before and after the match, or `none`
when the pattern does not occur (Python then returns a single part). -/
def splitExpAnchor : Str → Option (Str × Str)
  | [] => none
  | c :: cs =>
    match ciStripLit (("work experience").data) (c :: cs) with
    | some rest => some ([], rest)
    | none =>
      match ciStripLit (("professional experience").data) (c :: cs) with
      | some rest => some ([], rest)
      | none =>
        match ciStripLit (("experience").data) (c :: cs) with
        | some rest => some ([], rest)
        | none =>
          match splitExpAnchor cs with
          | some (pre, post) => some (c :: pre, post)
          | none => none

/-- Models `re.split(r"(?i)education", s, maxsplit=1)`. -/
def splitEduAnchor : Str → Option (Str × Str)
  | [] => none
  | c :: cs =>
    match ciStripLit (("education").data) (c :: cs) with
    | some rest => some ([], rest)
    | none =>
      match splitEduAnchor cs with
      | some (pre, post) => some (c :: pre, post)
      | none => none

/-- The strip set of `line.strip("‚Ä¢- \t")` in `_extract_responsibilities`
(the bullet characters appear mojibake-d in the source itself). -/
def respStripChars : Str := ['‚', 'Ä', '¢', '-', ' ', '\t']

/-- Models `re.search(r"experience|responsibilit|summary|education|skills",
clean, re.IGNORECASE)`. -/
def sectionKeyword (s : Str) : Bool :=
  containsSub (lowerStr s) (("experience").data) ||
  containsSub (lowerStr s) (("responsibilit").data) ||
  containsSub (lowerStr s) (("summary").data) ||
  containsSub (lowerStr s) (("education").data) ||
  containsSub (lowerStr s) (("skills").data)

/-- One iteration of the `_extract_responsibilities` loop: clean the line and
keep it when it is long enough and not a section header. -/
def respClean (line : Str) : Option Str :=
  let clean := stripSet respStripChars line
  if clean.length < 25 then none
  else if sectionKeyword clean then none
  else some clean

/-- Embeds `_extract_responsibilities` from `src/main.py`. -/
def _extract_responsibilities (lines : List Str) : List Str :=
  (lines.filterMap respClean).take 8

/-- Models `YEAR_PATTERN.search(s)` (existence only). -/
def hasYear (s : Str) : Bool := !(findallYears s).isEmpty

/-- Models `re.search(r"\d", s)` (existence only). -/
def hasDigit (s : Str) : Bool := s.any isDigit

structure ExperienceEntry where
  job_title : Str
  company : Option Str
  start_date : Option Str
  end_date : Option Str
  responsibilities : List Str
  job_title_confidence : ℚ
  company_confidence : ℚ
deriving DecidableEq

/-- Builds one experience entry from one blank-line chunk of the experience
section; returns `none` for chunks the Python loop skips with `continue`. -/
def buildExpEntry (chunk0 : Str) : Option ExperienceEntry :=
  let chunk := stripWS chunk0
  if chunk.length < 30 then none
  else
    match linesOf chunk with
    | [] => none
    | l0 :: rest =>
      let company : Option Str :=
        match rest with
        | l1 :: _ => if !hasYear l1 && !hasDigit l1 then some l1 else none
        | [] => none
      let dates := _parse_date_range chunk
      some {
        job_title := l0
        company := company
        start_date := dates.1
        end_date := dates.2
        responsibilities := _extract_responsibilities (rest.drop 1)
        job_title_confidence := if !l0.isEmpty then mkRat 85 100 else 0
        company_confidence := if truthyO company then mkRat 80 100 else 0 }

/-- The chunk loop of `parse_experience_section`, with its early exit at five
entries. -/
def expLoop : List Str → List ExperienceEntry → List ExperienceEntry
  | [], acc => acc
  | c :: cs, acc =>
    match buildExpEntry c with
    | none => expLoop cs acc
    | some e =>
      let acc2 := acc ++ [e]
      if 5 ≤ acc2.length then acc2 else expLoop cs acc2

/-- Embeds `parse_experience_section` from `src/main.py`. -/
def parse_experience_section (full_text : Str) : List ExperienceEntry :=
  match splitExpAnchor full_text with
  | none => []
  | some (_, exp_text) => expLoop (splitBlank exp_text) []

/-- Models `re.search(r"bachelor|b\.s\.|b\.sc|bsc|b\.tech|btech|b\.e\.|be", s)`
on an already lower-cased string. -/
def degreeKeyword (s : Str) : Bool :=
  containsSub s (("bachelor").data) || containsSub s (("b.s.").data) ||
  containsSub s (("b.sc").data) || containsSub s (("bsc").data) ||
  containsSub s (("b.tech").data) || containsSub s (("btech").data) ||
  containsSub s (("b.e.").data) || containsSub s (("be").data)

/-- The regex class `[A-Za-z ,]` of the `University of` capture. -/
def uniClassChar (c : Char) : Bool := isAlpha c || decide (c = ' ') || decide (c = ',')

/-- Case-sensitive literal match at the head of `s`. -/
def stripLit : Str → Str → Option Str
  | [], s => some s
  | _ :: _, [] => none
  | l :: ls, c :: cs => if c = l then stripLit ls cs else none

/-- Models `re.search(r"(University of [A-Za-z ,]+)", block)`: the leftmost
position where the literal is followed by at least one class character,
extended greedily. -/
def uniOfSearch : Str → Option Str
  | [] => none
  | c :: cs =>
    match stripLit (("University of ").data) (c :: cs) with
    | some rest =>
      let run := rest.takeWhile uniClassChar
      if run.isEmpty then uniOfSearch cs
      else some ((("University of ").data) ++ run)
    | none => uniOfSearch cs

structure EducationEntry where
  degree : Str
  institution : Option Str
  year : Str
  degree_confidence : ℚ
  institution_confidence : ℚ
deriving DecidableEq

/-- The degree extraction of `parse_education_section` on one stripped block:
the first line matching the degree keywords, else the first line, provided the
block as a whole matches; `none` otherwise (the block is then skipped). -/
def eduDegree (block : Str) : Option Str :=
  let lines := linesOf block
  if degreeKeyword (lowerStr block) then
    match lines.find? (fun l => degreeKeyword (lowerStr l)) with
    | some dl => if !dl.isEmpty then some dl else some (lines.headD [])
    | none => some (lines.headD [])
  else none

/-- The institution extraction of `parse_education_section` on one stripped
block: the first of the 2nd–3rd lines containing a letter, overridden by a
`University of …` capture anywhere in the block. -/
def eduInstitution (block : Str) : Option Str :=
  let lines := linesOf block
  let institution0 : Option Str :=
    ((lines.drop 1).take 2).find? (fun l => l.any isAlpha)
  match uniOfSearch block with
  | some m => some (stripWS m)
  | none => institution0

/-- Builds one education entry from one blank-line chunk of the education
section; returns `none` when the Python loop skips the chunk. -/
def buildEduEntry (block0 : Str) : Option EducationEntry :=
  let block := stripWS block0
  if block.length < 20 then none
  else
    let degree := eduDegree block
    if !truthyO degree then none
    else
      some {
        degree := getO degree
        institution := eduInstitution block
        year := match findallYears block with
          | y :: _ => y
          | [] => []
        degree_confidence := if truthyO degree then mkRat 85 100 else 0
        institution_confidence := if truthyO (eduInstitution block) then mkRat 80 100 else 0 }

/-- The chunk loop of `parse_education_section`, with its early exit at three
entries. -/
def eduLoop : List Str → List EducationEntry → List EducationEntry
  | [], acc => acc
  | c :: cs, acc =>
    match buildEduEntry c with
    | none => eduLoop cs acc
    | some e =>
      let acc2 := acc ++ [e]
      if 3 ≤ acc2.length then acc2 else eduLoop cs acc2

/-- Embeds `parse_education_section` from `src/main.py`. -/
def parse_education_section (full_text : Str) : List EducationEntry :=
  match splitEduAnchor full_text with
  | none => []
  | some (_, edu_text) => eduLoop (splitBlank edu_text) []

theorem respClean_keyword (l r : Str) (h : respClean l = some r) :
    sectionKeyword r = false := by
  unfold respClean at h
  dsimp only at h
  by_cases h1 : (stripSet respStripChars l).length < 25
  · rw [if_pos h1] at h; exact absurd h (by simp)
  · rw [if_neg h1] at h
    by_cases h2 : sectionKeyword (stripSet respStripChars l) = true
    · rw [if_pos h2] at h; exact absurd h (by simp)
    · rw [if_neg h2] at h
      have hr := Option.some_inj.mp h
      subst hr
      simpa using h2

theorem buildExp_resp_keyword (c : Str) (e : ExperienceEntry) (r : Str)
    (hb : buildExpEntry c = some e) (hr : r ∈ e.responsibilities) :
    sectionKeyword r = false := by
  unfold buildExpEntry at hb
  dsimp only at hb
  by_cases h1 : (stripWS c).length < 30
  · rw [if_pos h1] at hb; exact absurd hb (by simp)
  · rw [if_neg h1] at hb
    rcases hl : linesOf (stripWS c) with _ | ⟨l0, rest⟩
    · rw [hl] at hb; exact absurd hb (by simp)
    · rw [hl] at hb
      dsimp only at hb
      have he := Option.some_inj.mp hb
      subst he
      dsimp only at hr
      unfold _extract_responsibilities at hr
      obtain ⟨l, -, hcl⟩ := List.mem_filterMap.mp (List.mem_of_mem_take hr)
      exact respClean_keyword l r hcl

theorem buildExp_resp_le (c : Str) (e : ExperienceEntry) (hb : buildExpEntry c = some e) :
    e.responsibilities.length ≤ 8 := by
  unfold buildExpEntry at hb
  dsimp only at hb
  by_cases h1 : (stripWS c).length < 30
  · rw [if_pos h1] at hb; exact absurd hb (by simp)
  · rw [if_neg h1] at hb
    rcases hl : linesOf (stripWS c) with _ | ⟨l0, rest⟩
    · rw [hl] at hb; exact absurd hb (by simp)
    · rw [hl] at hb
      dsimp only at hb
      have he := Option.some_inj.mp hb
      subst he
      dsimp only
      unfold _extract_responsibilities
      exact List.length_take_le 8 _

theorem mem_expLoop : ∀ (cs : List Str) (acc : List ExperienceEntry) (e : ExperienceEntry),
    e ∈ expLoop cs acc → e ∈ acc ∨ ∃ c, buildExpEntry c = some e
  | [], acc, e, h => Or.inl (by simpa [expLoop] using h)
  | c :: cs, acc, e, h => by
    simp only [expLoop] at h
    rcases hb : buildExpEntry c with _ | e2
    · rw [hb] at h
      exact mem_expLoop cs acc e h
    · rw [hb] at h
      dsimp only at h
      by_cases h5 : 5 ≤ (acc ++ [e2]).length
      · rw [if_pos h5] at h
        rcases List.mem_append.mp h with h | h
        · exact Or.inl h
        · simp only [List.mem_singleton] at h
          subst h
          exact Or.inr ⟨c, hb⟩
      · rw [if_neg h5] at h
        rcases mem_expLoop cs (acc ++ [e2]) e h with h | h
        · rcases List.mem_append.mp h with h | h
          · exact Or.inl h
          · simp only [List.mem_singleton] at h
            subst h
            exact Or.inr ⟨c, hb⟩
        · exact Or.inr h

theorem expLoop_length_le : ∀ (cs : List Str) (acc : List ExperienceEntry),
    acc.length ≤ 4 → (expLoop cs acc).length ≤ 5
  | [], acc, h => by simpa [expLoop] using Nat.le_succ_of_le h
  | c :: cs, acc, h => by
    simp only [expLoop]
    rcases hb : buildExpEntry c with _ | e2
    · exact expLoop_length_le cs acc h
    · dsimp only
      by_cases h5 : 5 ≤ (acc ++ [e2]).length
      · rw [if_pos h5]
        simp only [List.length_append, List.length_singleton]
        omega
      · rw [if_neg h5]
        refine expLoop_length_le cs (acc ++ [e2]) ?_
        simp only [List.length_append, List.length_singleton] at h5 ⊢
        omega

theorem mem_eduLoop : ∀ (cs : List Str) (acc : List EducationEntry) (e : EducationEntry),
    e ∈ eduLoop cs acc → e ∈ acc ∨ ∃ c, buildEduEntry c = some e
  | [], acc, e, h => Or.inl (by simpa [eduLoop] using h)
  | c :: cs, acc, e, h => by
    simp only [eduLoop] at h
    rcases hb : buildEduEntry c with _ | e2
    · rw [hb] at h
      exact mem_eduLoop cs acc e h
    · rw [hb] at h
      dsimp only at h
      by_cases h3 : 3 ≤ (acc ++ [e2]).length
      · rw [if_pos h3] at h
        rcases List.mem_append.mp h with h | h
        · exact Or.inl h
        · simp only [List.mem_singleton] at h
          subst h
          exact Or.inr ⟨c, hb⟩
      · rw [if_neg h3] at h
        rcases mem_eduLoop cs (acc ++ [e2]) e h with h | h
        · rcases List.mem_append.mp h with h | h
          · exact Or.inl h
          · simp only [List.mem_singleton] at h
            subst h
            exact Or.inr ⟨c, hb⟩
        · exact Or.inr h

theorem eduLoop_length_le : ∀ (cs : List Str) (acc : List EducationEntry),
    acc.length ≤ 2 → (eduLoop cs acc).length ≤ 3
  | [], acc, h => by simpa [eduLoop] using Nat.le_succ_of_le h
  | c :: cs, acc, h => by
    simp only [eduLoop]
    rcases hb : buildEduEntry c with _ | e2
    · exact eduLoop_length_le cs acc h
    · dsimp only
      by_cases h3 : 3 ≤ (acc ++ [e2]).length
      · rw [if_pos h3]
        simp only [List.length_append, List.length_singleton]
        omega
      · rw [if_neg h3]
        refine eduLoop_length_le cs (acc ++ [e2]) ?_
        simp only [List.length_append, List.length_singleton] at h3 ⊢
        omega

theorem parse_experience_section_length_le (t : Str) :
    (parse_experience_section t).length ≤ 5 := by
  unfold parse_experience_section
  rcases splitExpAnchor t with _ | ⟨pre, post⟩
  · simp
  · exact expLoop_length_le _ [] (by simp)

theorem parse_education_section_length_le (t : Str) :
    (parse_education_section t).length ≤ 3 := by
  unfold parse_education_section
  rcases splitEduAnchor t with _ | ⟨pre, post⟩
  · simp
  · exact eduLoop_length_le _ [] (by simp)

theorem parse_experience_section_resp_le (t : Str) (e : ExperienceEntry)
    (he : e ∈ parse_experience_section t) : e.responsibilities.length ≤ 8 := by
  unfold parse_experience_section at he
  rcases ha : splitExpAnchor t with _ | ⟨pre, post⟩
  · rw [ha] at he; simp at he
  · rw [ha] at he
    dsimp only at he
    rcases mem_expLoop _ _ _ he with h | ⟨c, hb⟩
    · simp at h
    · exact buildExp_resp_le c e hb

/-- C2 counterexample: in `parse_experience_section` the section body is NOT
truncated at the next section keyword.  In this input the line after the
`EDUCATION` terminator line ends up as a responsibility of the experience
entry, contradicting the claim that no experience entry is built from lines
at or after the terminator. -/
theorem claim_C2_counterexample :
    parse_experience_section
        (("EXPERIENCE\nSoftware Engineer\nAcme Corporation Inc\nEDUCATION\nBachelor of Science in Computing, MIT 2015").data) =
      [{ job_title := ("Software Engineer").data
         company := some (("Acme Corporation Inc").data)
         start_date := some (("2015").data)
         end_date := none
         responsibilities := [("Bachelor of Science in Computing, MIT 2015").data]
         job_title_confidence := mkRat 85 100
         company_confidence := mkRat 80 100 }] := by
  decide

/-- C2 amended: the experience section body is everything after the first
anchor match — it is not truncated at terminator keywords such as
"education"/"skills", so entries may be built from lines at or after such a
line (see the counterexample).  What does hold is the responsibility filter:
no responsibility line of any built entry contains a section keyword
(experience / responsibilit / summary / education / skills). -/
theorem claim_C2 (text : Str) (e : ExperienceEntry) (r : Str)
    (he : e ∈ parse_experience_section text) (hr : r ∈ e.responsibilities) :
    sectionKeyword r = false := by
  unfold parse_experience_section at he
  rcases ha : splitExpAnchor text with _ | ⟨pre, post⟩
  · rw [ha] at he; simp at he
  · rw [ha] at he
    dsimp only at he
    rcases mem_expLoop _ _ _ he with h | ⟨c, hb⟩
    · simp at h
    · exact buildExp_resp_keyword c e r hb hr

/-- Witness for C2: the amended filter guarantee applied to the concrete
counterexample input and its single responsibility line. -/
theorem claim_C2_witness :
    sectionKeyword (("Bachelor of Science in Computing, MIT 2015").data) = false :=
  claim_C2
    (("EXPERIENCE\nSoftware Engineer\nAcme Corporation Inc\nEDUCATION\nBachelor of Science in Computing, MIT 2015").data)
    { job_title := ("Software Engineer").data
      company := some (("Acme Corporation Inc").data)
      start_date := some (("2015").data)
      end_date := none
      responsibilities := [("Bachelor of Science in Computing, MIT 2015").data]
      job_title_confidence := mkRat 85 100
      company_confidence := mkRat 80 100 }
    (("Bachelor of Science in Computing, MIT 2015").data)
    (by decide) (by decide)

/-- `wbHere alias prev s` tests a regex match of `\b alias \b` at the current
position: `alias` is a prefix of `s`, and the word-character status changes at
both ends (`\b` holds where exactly one neighbour is a word character; out of
range counts as non-word). -/
def wbHere (pat : Str) (prev : Option Char) (s : Str) : Bool :=
  isPrefixL pat s &&
  (isWordOpt prev != isWordOpt s.head?) &&
  (isWordOpt pat.getLast? != isWordOpt (s.drop pat.length).head?)

def wbGo (pat : Str) : Option Char → Str → Bool
  | _, [] => false
  | prev, c :: cs => wbHere pat prev (c :: cs) || wbGo pat (some c) cs

/-- Models `re.search(r"\b" + re.escape(raw) + r"\b", text)` for the literal
catalog aliases of `extract_skills`. -/
def wordBoundaryMatch (pat : Str) (text : Str) : Bool := wbGo pat none text

/-- The `programming_languages` catalog of `SKILL_CATALOG`, in source order. -/
def catalogProgrammingLanguages : List (Str × Str) :=
  [ (("java").data, ("Java").data), (("javascript").data, ("JavaScript").data),
    (("js").data, ("JavaScript").data), (("typescript").data, ("TypeScript").data),
    (("python").data, ("Python").data), (("c++").data, ("C++").data),
    (("c#").data, ("C#").data), (("go").data, ("Go").data), (("ruby").data, ("Ruby").data) ]

/-- The `frameworks_and_libraries` catalog of `SKILL_CATALOG`. -/
def catalogFrameworks : List (Str × Str) :=
  [ (("react").data, ("React.js").data), (("reactjs").data, ("React.js").data),
    (("react.js").data, ("React.js").data), (("next").data, ("Next.js").data),
    (("next.js").data, ("Next.js").data), (("angular").data, ("Angular").data),
    (("vue").data, ("Vue.js").data), (("django").data, ("Django").data),
    (("flask").data, ("Flask").data), (("spring").data, ("Spring").data) ]

/-- The `cloud_and_infra` catalog of `SKILL_CATALOG`. -/
def catalogCloud : List (Str × Str) :=
  [ (("aws").data, ("AWS").data), (("azure").data, ("Azure").data),
    (("gcp").data, ("GCP").data), (("docker").data, ("Docker").data),
    (("kubernetes").data, ("Kubernetes").data), (("k8s").data, ("Kubernetes").data),
    (("terraform").data, ("Terraform").data) ]

/-- The `databases` catalog of `SKILL_CATALOG`. -/
def catalogDatabases : List (Str × Str) :=
  [ (("mysql").data, ("MySQL").data), (("postgres").data, ("PostgreSQL").data),
    (("postgresql").data, ("PostgreSQL").data), (("mongodb").data, ("MongoDB").data),
    (("redis").data, ("Redis").data) ]

/-- The `dev_tools` catalog of `SKILL_CATALOG`. -/
def catalogDevTools : List (Str × Str) :=
  [ (("git").data, ("Git").data), (("jira").data, ("Jira").data),
    (("jenkins").data, ("Jenkins").data), (("github").data, ("GitHub").data),
    (("gitlab").data, ("GitLab").data) ]

/-- Python string `<=`: lexicographic comparison by code point, a proper
prefix sorts first.  Models the order used by `sorted`. -/
def strLe : Str → Str → Bool
  | [], _ => true
  | _ :: _, [] => false
  | a :: as, b :: bs =>
    if a.toNat < b.toNat then true
    else if b.toNat < a.toNat then false
    else strLe as bs

/-- One category of `extract_skills`: canonical names whose alias matches the
lower-cased text, accumulated as a set and then sorted. -/
def matchCategory (cat : List (Str × Str)) (textLower : Str) : List Str :=
  List.insertionSort (fun a b => strLe a b = true)
    ((cat.filterMap
      (fun rp => if wordBoundaryMatch rp.1 textLower then some rp.2 else none)).dedup)

structure SkillSet where
  programming_languages : List Str
  frameworks_and_libraries : List Str
  cloud_and_infra : List Str
  databases : List Str
  dev_tools : List Str
deriving DecidableEq

/-- Embeds `extract_skills` from `src/main.py`. -/
def extract_skills (full_text : Str) : SkillSet :=
  let tl := lowerStr full_text
  { programming_languages := matchCategory catalogProgrammingLanguages tl
    frameworks_and_libraries := matchCategory catalogFrameworks tl
    cloud_and_infra := matchCategory catalogCloud tl
    databases := matchCategory catalogDatabases tl
    dev_tools := matchCategory catalogDevTools tl }

/-- The five keys of `SKILL_CATALOG`. -/
inductive SkillCategory
  | programming_languages
  | frameworks_and_libraries
  | cloud_and_infra
  | databases
  | dev_tools
deriving DecidableEq

def catalogOf : SkillCategory → List (Str × Str)
  | .programming_languages => catalogProgrammingLanguages
  | .frameworks_and_libraries => catalogFrameworks
  | .cloud_and_infra => catalogCloud
  | .databases => catalogDatabases
  | .dev_tools => catalogDevTools

def listOf (ss : SkillSet) : SkillCategory → List Str
  | .programming_languages => ss.programming_languages
  | .frameworks_and_libraries => ss.frameworks_and_libraries
  | .cloud_and_infra => ss.cloud_and_infra
  | .databases => ss.databases
  | .dev_tools => ss.dev_tools

theorem strLe_cons (x y : Char) (xs ys : Str) :
    strLe (x :: xs) (y :: ys) = true ↔
      x.toNat < y.toNat ∨ (x.toNat = y.toNat ∧ strLe xs ys = true) := by
  simp only [strLe]
  by_cases h1 : x.toNat < y.toNat
  · rw [if_pos h1]
    simp [h1]
  · rw [if_neg h1]
    by_cases h2 : y.toNat < x.toNat
    · rw [if_pos h2]
      constructor
      · intro h; simp at h
      · rintro (h | ⟨h, -⟩) <;> omega
    · rw [if_neg h2]
      constructor
      · intro h; exact Or.inr ⟨by omega, h⟩
      · rintro (h | ⟨-, h⟩)
        · omega
        · exact h

theorem strLe_total : ∀ a b : Str, strLe a b = true ∨ strLe b a = true := by
  intro a
  induction a with
  | nil => intro b; left; rfl
  | cons x xs ih =>
    intro b
    rcases b with _ | ⟨y, ys⟩
    · right; rfl
    · rw [strLe_cons, strLe_cons]
      rcases Nat.lt_trichotomy x.toNat y.toNat with h | h | h
      · exact Or.inl (Or.inl h)
      · rcases ih ys with h2 | h2
        · exact Or.inl (Or.inr ⟨h, h2⟩)
        · exact Or.inr (Or.inr ⟨h.symm, h2⟩)
      · exact Or.inr (Or.inl h)

theorem strLe_trans : ∀ a b c : Str,
    strLe a b = true → strLe b c = true → strLe a c = true := by
  intro a
  induction a with
  | nil => intro b c _ _; rfl
  | cons x xs ih =>
    rintro (_ | ⟨y, ys⟩) c h1 h2
    · simp [strLe] at h1
    · rcases c with _ | ⟨z, zs⟩
      · simp [strLe] at h2
      · rw [strLe_cons] at h1 h2 ⊢
        rcases h1 with h1 | ⟨h1e, h1s⟩ <;> rcases h2 with h2 | ⟨h2e, h2s⟩
        · exact Or.inl (by omega)
        · exact Or.inl (by omega)
        · exact Or.inl (by omega)
        · exact Or.inr ⟨by omega, ih ys zs h1s h2s⟩

instance : IsTotal Str (fun a b => strLe a b = true) := ⟨strLe_total⟩

instance : IsTrans Str (fun a b => strLe a b = true) := ⟨strLe_trans⟩

theorem mem_matchCategory (cat : List (Str × Str)) (tl : Str) (p : Str) :
    p ∈ matchCategory cat tl ↔
      ∃ raw, (raw, p) ∈ cat ∧ wordBoundaryMatch raw tl = true := by
  unfold matchCategory
  rw [List.mem_insertionSort, List.mem_dedup, List.mem_filterMap]
  constructor
  · rintro ⟨rp, hmem, hsome⟩
    by_cases hm : wordBoundaryMatch rp.1 tl = true
    · rw [if_pos hm] at hsome
      have : rp.2 = p := Option.some_inj.mp hsome
      subst this
      exact ⟨rp.1, by simpa using hmem, hm⟩
    · rw [if_neg hm] at hsome
      exact absurd hsome (by simp)
  · rintro ⟨raw, hmem, hm⟩
    exact ⟨(raw, p), hmem, by rw [if_pos hm]⟩

theorem matchCategory_sorted (cat : List (Str × Str)) (tl : Str) :
    List.Sorted (fun a b => strLe a b = true) (matchCategory cat tl) :=
  List.sorted_insertionSort _ _

theorem matchCategory_nodup (cat : List (Str × Str)) (tl : Str) :
    (matchCategory cat tl).Nodup :=
  (List.perm_insertionSort _ _).nodup_iff.mpr (List.nodup_dedup _)

/-- C6: for every input text and category, a canonical skill name appears in
that category's list exactly when some catalog alias mapping to it matches the
lower-cased text as a whole word (so per-alias, the alias's canonical name
appears iff the alias — or a sibling alias for the same canonical name —
occurs); each category list is sorted and duplicate-free; and the text
`"React ReactJS react.js"` yields exactly one `"React.js"` entry in
`frameworks_and_libraries`. -/
theorem claim_C6 :
    (∀ (text : Str) (cat : SkillCategory),
      List.Sorted (fun a b => strLe a b = true) (listOf (extract_skills text) cat) ∧
      (listOf (extract_skills text) cat).Nodup ∧
      (∀ p : Str, p ∈ listOf (extract_skills text) cat ↔
        ∃ raw, (raw, p) ∈ catalogOf cat ∧ wordBoundaryMatch raw (lowerStr text) = true)) ∧
    (extract_skills (("React ReactJS react.js").data)).frameworks_and_libraries.count
      (("React.js").data) = 1 := by
  constructor
  · intro text cat
    cases cat <;>
      exact ⟨matchCategory_sorted _ _, matchCategory_nodup _ _,
        fun p => mem_matchCategory _ _ p⟩
  · decide

/-- The local-part class `[A-Za-z0-9._%+-]` of the email pattern. -/
def emailLocalChar (c : Char) : Bool :=
  isAlpha c || isDigit c || decide (c = '.') || decide (c = '_') || decide (c = '%') ||
  decide (c = '+') || decide (c = '-')

/-- The domain class `[A-Za-z0-9.-]` of the email pattern. -/
def emailDomainChar (c : Char) : Bool :=
  isAlpha c || isDigit c || decide (c = '.') || decide (c = '-')

/-- Finds the last position `d ≥ 1` in the maximal domain run at which a dot is
followed by at least two letters; this is the split the greedy `D+ \.
[A-Za-z]{2,}` backtracking settles on. -/
def lastDotPos : Str → Nat → Option Nat → Option Nat
  | [], _, best => best
  | c :: cs, i, best =>
    if c = '.' && 1 ≤ i && 2 ≤ (cs.takeWhile isAlpha).length then
      lastDotPos cs (i + 1) (some i)
    else lastDotPos cs (i + 1) best

/-- Attempts `[A-Za-z0-9._%+-]+@[A-Za-z0-9.-]+\.[A-Za-z]{2,}` at the head of
`s`; returns the matched string.  The local and domain runs are maximal (the
classes exclude `@` and the terminator, so backtracking them cannot help); the
domain backtracks greedily to the last viable dot. -/
def emailMatchAt (s : Str) : Option Str :=
  let loc := s.takeWhile emailLocalChar
  if loc.isEmpty then none
  else
    match s.drop loc.length with
    | c :: rest =>
      if c = '@' then
        let dom := rest.takeWhile emailDomainChar
        match lastDotPos dom 0 none with
        | some d =>
          some (loc ++ '@' :: (dom.take d ++ '.' :: ((dom.drop (d + 1)).takeWhile isAlpha)))
        | none => none
      else none
    | [] => none

/-- Models `re.search` of the email pattern: first position with a match. -/
def emailSearch : Str → Option Str
  | [] => none
  | c :: cs =>
    match emailMatchAt (c :: cs) with
    | some m => some m
    | none => emailSearch cs

/-- The separator class `[\s-]` of the phone pattern. -/
def sepChar (c : Char) : Bool := isWs c || decide (c = '-')

/-- Greedy `X?`: the candidate continuations in backtracking order (consume
first, then skip). -/
def optConsume (p : Char → Bool) (s : Str) : List Str :=
  match s with
  | c :: cs => if p c then [cs, s] else [s]
  | [] => [s]

def eatDigits : Nat → Str → Option Str
  | 0, s => some s
  | n + 1, c :: cs => if isDigit c then eatDigits n cs else none
  | _ + 1, [] => none

/-- Try the continuation on each candidate in order (regex backtracking). -/
def tryAll (cands : List Str) (k : Str → Option Str) : Option Str :=
  match cands with
  | [] => none
  | c :: cs =>
    match k c with
    | some r => some r
    | none => tryAll cs k

/-- The mandatory group `\(?\d{3}\)?[\s-]?\d{3}[\s-]?\d{4}` of the phone
pattern; returns the remaining suffix after a match at the head of `s`. -/
def phoneCore (s : Str) : Option Str :=
  tryAll (optConsume (fun c => decide (c = '(')) s) (fun s1 =>
    (eatDigits 3 s1).bind (fun s2 =>
      tryAll (optConsume (fun c => decide (c = ')')) s2) (fun s3 =>
        tryAll (optConsume sepChar s3) (fun s4 =>
          (eatDigits 3 s4).bind (fun s5 =>
            tryAll (optConsume sepChar s5) (fun s6 =>
              eatDigits 4 s6))))))

/-- Candidates for the optional prefix group `(\+\d{1,3}[\s-]?)?` in greedy
backtracking order: with the group (3, 2, then 1 digits, each with and then
without the separator), finally without the group. -/
def phonePrefixCands (s : Str) : List Str :=
  (match s with
   | c :: cs =>
     if c = '+' then
       ((eatDigits 3 cs).toList ++ (eatDigits 2 cs).toList ++ (eatDigits 1 cs).toList).flatMap
         (fun r => optConsume sepChar r)
     else []
   | [] => []) ++ [s]

/-- Attempts the whole phone pattern at the head of `s`; returns the remaining
suffix after the match. -/
def phoneMatchAt (s : Str) : Option Str :=
  tryAll (phonePrefixCands s) (fun s1 => phoneCore s1)

/-- Models `re.search` of the phone pattern; the value is `group(0)`. -/
def phoneSearch : Str → Option Str
  | [] => none
  | c :: cs =>
    match phoneMatchAt (c :: cs) with
    | some rest => some ((c :: cs).take ((c :: cs).length - rest.length))
    | none => phoneSearch cs

/-- Models `re.search(r"summary|objective|profile", line, re.IGNORECASE)`. -/
def summaryKeyword (l : Str) : Bool :=
  containsSub (lowerStr l) (("summary").data) ||
  containsSub (lowerStr l) (("objective").data) ||
  containsSub (lowerStr l) (("profile").data)

/-- Models `lines.index(line)`: index of the first occurrence. -/
def idxOfStr (x : Str) : List Str → Nat
  | [] => 0
  | l :: ls => if l = x then 0 else idxOfStr x ls + 1

/-- The summary scan of `parse_basic_fields`: first line of `lines[3:15]`
matching the keyword, then the line after that line's first occurrence. -/
def findSummary (lines : List Str) : Option Str :=
  match ((lines.drop 3).take 12).find? summaryKeyword with
  | none => none
  | some l =>
    let idx := idxOfStr l lines
    if idx + 1 < lines.length then lines.get? (idx + 1) else none

/-- Case-insensitive substring search, models `re.search(lit, s, IGNORECASE)`
for a lower-case literal (or alternation of literals checked separately). -/
def containsCI (hay : Str) (needle : Str) : Bool := containsSub (lowerStr hay) needle

structure ParsedResume where
  name : Option Str
  email : Option Str
  phone : Option Str
  location : Option Str
  role_level : Str
  primary_role : Option Str
  years_of_experience_total : Option ℚ
  years_of_experience_in_tech : Option ℚ
  github : Str
  portfolio : Str
  summary : Option Str
  experience : List ExperienceEntry
  education : List EducationEntry
  skills : SkillSet
  raw : Str
  name_confidence : ℚ
  email_confidence : ℚ
  phone_confidence : ℚ
  location_confidence : ℚ
  summary_confidence : ℚ
deriving DecidableEq

/-- Embeds `parse_basic_fields` from `src/main.py`.  The skill categories that
`result.update(skills)` merges into the flat dict are kept in the `skills`
field (the keys do not collide with the rest of the record). -/
def parse_basic_fields (text : Str) : ParsedResume :=
  let lines := linesOf text
  let full_text := joinNl lines
  let name : Option Str := lines.head?
  let email := emailSearch full_text
  let phone := phoneSearch full_text
  let location := (lines.take 10).find? (fun l => l.contains ',' && !l.contains '@')
  let summary := findSummary lines
  let experience_blocks := parse_experience_section full_text
  let education_blocks := parse_education_section full_text
  let skills := extract_skills full_text
  let role_level : Str :=
    if wordBoundaryMatch (("senior").data) (lowerStr full_text) then ("Senior").data
    else if wordBoundaryMatch (("junior").data) (lowerStr full_text) ||
        wordBoundaryMatch (("entry").data) (lowerStr full_text) then ("Junior").data
    else ("Mid-level").data
  let primary_role : Option Str :=
    if containsCI full_text (("devops").data) || containsCI full_text (("sysops").data) ||
        containsCI full_text (("system administrator").data) ||
        containsCI full_text (("infrastructure").data) then some (("Cloud / SysOps").data)
    else if containsCI full_text (("frontend").data) || containsCI full_text (("react").data) ||
        containsCI full_text (("ui").data) then some (("Frontend").data)
    else if containsCI full_text (("backend").data) || containsCI full_text (("api").data) ||
        containsCI full_text (("microservices").data) then some (("Backend").data)
    else none
  { name := name
    email := email
    phone := phone
    location := location
    role_level := role_level
    primary_role := primary_role
    years_of_experience_total := none
    years_of_experience_in_tech := none
    github := []
    portfolio := []
    summary := summary
    experience := experience_blocks
    education := education_blocks
    skills := skills
    raw := text
    name_confidence := if truthyO name then mkRat 90 100 else 0
    email_confidence := if truthyO email then mkRat 95 100 else 0
    phone_confidence := if truthyO phone then mkRat 90 100 else 0
    location_confidence := if truthyO location then mkRat 80 100 else 0
    summary_confidence := if truthyO summary then mkRat 80 100 else 0 }

/-- No two adjacent newline characters (the shape of `"\n".join` output on
non-empty newline-free lines). -/
def noAdjNl : Str → Bool
  | a :: b :: t => !(a = '\n' && b = '\n') && noAdjNl (b :: t)
  | _ => true

theorem noAdjNl_tail (c : Char) (cs : Str) (h : noAdjNl (c :: cs) = true) :
    noAdjNl cs = true := by
  rcases cs with _ | ⟨b, t⟩
  · rfl
  · simp only [noAdjNl, Bool.and_eq_true] at h
    exact h.2

theorem noAdjNl_head (cs : Str) (h : noAdjNl ('\n' :: cs) = true) :
    cs.head? ≠ some '\n' := by
  rcases cs with _ | ⟨b, t⟩
  · simp
  · simp only [noAdjNl, Bool.and_eq_true] at h
    intro hb
    simp only [List.head?_cons, Option.some_inj] at hb
    subst hb
    simp at h

theorem splitBlankGo_noAdj : ∀ (s acc : Str), noAdjNl s = true →
    splitBlankGo 0 acc s = [acc.reverse ++ s] ∧
    (s.head? ≠ some '\n' → splitBlankGo 1 acc s = [acc.reverse ++ '\n' :: s]) := by
  intro s
  induction s with
  | nil =>
    intro acc _
    refine ⟨by simp [splitBlankGo], fun _ => by simp [splitBlankGo]⟩
  | cons c cs ih =>
    intro acc hna
    have hcs := noAdjNl_tail c cs hna
    constructor
    · simp only [splitBlankGo]
      by_cases hc : c = '\n'
      · rw [if_pos hc]
        subst hc
        have hh := noAdjNl_head cs hna
        have h2 := (ih acc hcs).2 hh
        rw [show (0 + 1 : Nat) = 1 from rfl, h2]
      · rw [if_neg hc, if_neg (by omega), if_neg (by omega)]
        rw [(ih (c :: acc) hcs).1]
        simp
    · intro hhead
      have hc : c ≠ '\n' := by
        intro h
        exact hhead (by simp [h])
      simp only [splitBlankGo]
      rw [if_neg hc, if_neg (by omega), if_true]
      rw [(ih (c :: '\n' :: acc) hcs).1]
      simp

theorem splitBlank_noAdj (s : Str) (h : noAdjNl s = true) : splitBlank s = [s] := by
  have h2 := (splitBlankGo_noAdj s [] h).1
  simpa [splitBlank] using h2

theorem ne_nl_of_not_mem (a : Char) (t : Str) (h : '\n' ∉ a :: t) : a ≠ '\n' :=
  fun hh => h (by simp [hh])

theorem noAdjNl_of_no_nl : ∀ l : Str, '\n' ∉ l → noAdjNl l = true
  | [], _ => rfl
  | [_], _ => rfl
  | a :: b :: t, h => by
    simp only [noAdjNl, Bool.and_eq_true]
    refine ⟨?_, noAdjNl_of_no_nl (b :: t) (fun hh => h (List.mem_cons_of_mem a hh))⟩
    have ha := ne_nl_of_not_mem a (b :: t) h
    simp [ha]

theorem noAdjNl_append : ∀ (l R : Str), '\n' ∉ l → noAdjNl R = true →
    R.head? ≠ some '\n' → noAdjNl (l ++ '\n' :: R) = true
  | [], R, _, hR, hh => by
    rcases R with _ | ⟨b, t⟩
    · rfl
    · simp only [List.nil_append, noAdjNl, Bool.and_eq_true]
      have hb : b ≠ '\n' := by
        intro h2
        exact hh (by simp [h2])
      exact ⟨by simp [hb], hR⟩
  | [a], R, hl, hR, hh => by
    have ha := ne_nl_of_not_mem a [] hl
    simp only [List.cons_append, List.nil_append, noAdjNl, Bool.and_eq_true]
    refine ⟨by simp [ha], ?_⟩
    rcases R with _ | ⟨b, t⟩
    · rfl
    · simp only [noAdjNl, Bool.and_eq_true]
      have hb : b ≠ '\n' := by
        intro h2
        exact hh (by simp [h2])
      exact ⟨by simp [hb], hR⟩
  | a :: b :: t, R, hl, hR, hh => by
    simp only [List.cons_append, noAdjNl, Bool.and_eq_true]
    have ha := ne_nl_of_not_mem a (b :: t) hl
    refine ⟨by simp [ha], ?_⟩
    have h3 : noAdjNl ((b :: t) ++ '\n' :: R) = true :=
      noAdjNl_append (b :: t) R (fun hm => hl (List.mem_cons_of_mem a hm)) hR hh
    simpa using h3

theorem joinNl_cons_head (a : Char) (t : Str) (ls : List Str) :
    (joinNl ((a :: t) :: ls)).head? = some a := by
  rcases ls with _ | ⟨l2, ls⟩
  · rfl
  · rfl

theorem noAdjNl_joinNl : ∀ ls : List Str, (∀ l ∈ ls, l ≠ [] ∧ '\n' ∉ l) →
    noAdjNl (joinNl ls) = true
  | [], _ => rfl
  | [l], h => noAdjNl_of_no_nl l (h l (by simp)).2
  | l :: l2 :: ls, h => by
    show noAdjNl (l ++ '\n' :: joinNl (l2 :: ls)) = true
    refine noAdjNl_append l (joinNl (l2 :: ls)) (h l (by simp)).2
      (noAdjNl_joinNl (l2 :: ls) (fun x hx => h x (List.mem_cons_of_mem l hx))) ?_
    obtain ⟨hne, hnl⟩ := h l2 (by simp)
    rcases l2 with _ | ⟨a, t⟩
    · exact absurd rfl hne
    · rw [joinNl_cons_head]
      have ha := ne_nl_of_not_mem a t hnl
      simp [ha]

theorem splitNl_ne_nil : ∀ s : Str, splitNl s ≠ []
  | [] => by simp [splitNl]
  | c :: cs => by
    simp only [splitNl]
    by_cases hc : c = '\n'
    · rw [if_pos hc]; simp
    · rw [if_neg hc]
      rcases h : splitNl cs with _ | ⟨s0, ss⟩
      · simp
      · simp

theorem splitNl_no_nl : ∀ (s : Str) (seg : Str), seg ∈ splitNl s → '\n' ∉ seg
  | [], seg, h => by
    simp only [splitNl, List.mem_singleton] at h
    subst h
    simp
  | c :: cs, seg, h => by
    simp only [splitNl] at h
    by_cases hc : c = '\n'
    · rw [if_pos hc] at h
      rcases List.mem_cons.mp h with h | h
      · subst h; simp
      · exact splitNl_no_nl cs seg h
    · rw [if_neg hc] at h
      rcases hs : splitNl cs with _ | ⟨s0, ss⟩
      · exact absurd hs (splitNl_ne_nil cs)
      · rw [hs] at h
        dsimp only at h
        rcases List.mem_cons.mp h with h | h
        · subst h
          intro hm
          rcases List.mem_cons.mp hm with hm | hm
          · exact hc hm.symm
          · exact splitNl_no_nl cs s0 (by rw [hs]; exact List.mem_cons_self s0 ss) hm
        · exact splitNl_no_nl cs seg (by rw [hs]; exact List.mem_cons_of_mem s0 h)

theorem mem_stripIf (p : Char → Bool) (l : Str) (c : Char) (h : c ∈ stripIf p l) :
    c ∈ l := by
  unfold stripIf at h
  rw [List.mem_reverse] at h
  have h2 := (List.dropWhile_suffix p).sublist.subset h
  rw [List.mem_reverse] at h2
  exact (List.dropWhile_suffix p).sublist.subset h2

theorem linesOf_mem (s l : Str) (h : l ∈ linesOf s) : l ≠ [] ∧ '\n' ∉ l := by
  unfold linesOf at h
  obtain ⟨hmem, hne⟩ := List.mem_filter.mp h
  obtain ⟨seg, hseg, rfl⟩ := List.mem_map.mp hmem
  refine ⟨?_, ?_⟩
  · intro h0
    rw [h0] at hne
    simp at hne
  · intro hm
    exact splitNl_no_nl s seg hseg (mem_stripIf isWs seg '\n' hm)

theorem ciStripLit_suffix : ∀ (lit s r : Str), ciStripLit lit s = some r → r <:+ s
  | [], s, r, h => by
    simp only [ciStripLit, Option.some_inj] at h
    subst h
    exact List.suffix_refl s
  | _ :: _, [], r, h => by simp [ciStripLit] at h
  | l :: ls, c :: cs, r, h => by
    simp only [ciStripLit] at h
    by_cases hc : lowerChar c = l
    · rw [if_pos hc] at h
      exact (ciStripLit_suffix ls cs r h).trans (List.suffix_cons c cs)
    · rw [if_neg hc] at h
      exact absurd h (by simp)

theorem splitExpAnchor_suffix : ∀ (s pre post : Str),
    splitExpAnchor s = some (pre, post) → post <:+ s
  | [], pre, post, h => by simp [splitExpAnchor] at h
  | c :: cs, pre, post, h => by
    simp only [splitExpAnchor] at h
    rcases h1 : ciStripLit (("work experience").data) (c :: cs) with _ | r1
    · rw [h1] at h
      rcases h2 : ciStripLit (("professional experience").data) (c :: cs) with _ | r2
      · rw [h2] at h
        rcases h3 : ciStripLit (("experience").data) (c :: cs) with _ | r3
        · rw [h3] at h
          rcases h4 : splitExpAnchor cs with _ | ⟨p4, q4⟩
          · rw [h4] at h
            exact absurd h (by simp)
          · rw [h4] at h
            dsimp only at h
            have hp := congrArg Prod.snd (Option.some_inj.mp h)
            dsimp only at hp
            rw [← hp]
            exact (splitExpAnchor_suffix cs p4 q4 h4).trans (List.suffix_cons c cs)
        · rw [h3] at h
          dsimp only at h
          have hp := congrArg Prod.snd (Option.some_inj.mp h)
          dsimp only at hp
          rw [← hp]
          exact ciStripLit_suffix _ _ r3 h3
      · rw [h2] at h
        dsimp only at h
        have hp := congrArg Prod.snd (Option.some_inj.mp h)
        dsimp only at hp
        rw [← hp]
        exact ciStripLit_suffix _ _ r2 h2
    · rw [h1] at h
      dsimp only at h
      have hp := congrArg Prod.snd (Option.some_inj.mp h)
      dsimp only at hp
      rw [← hp]
      exact ciStripLit_suffix _ _ r1 h1

theorem splitEduAnchor_suffix : ∀ (s pre post : Str),
    splitEduAnchor s = some (pre, post) → post <:+ s
  | [], pre, post, h => by simp [splitEduAnchor] at h
  | c :: cs, pre, post, h => by
    simp only [splitEduAnchor] at h
    rcases h1 : ciStripLit (("education").data) (c :: cs) with _ | r1
    · rw [h1] at h
      rcases h4 : splitEduAnchor cs with _ | ⟨p4, q4⟩
      · rw [h4] at h
        exact absurd h (by simp)
      · rw [h4] at h
        dsimp only at h
        have hp := congrArg Prod.snd (Option.some_inj.mp h)
        dsimp only at hp
        rw [← hp]
        exact (splitEduAnchor_suffix cs p4 q4 h4).trans (List.suffix_cons c cs)
    · rw [h1] at h
      dsimp only at h
      have hp := congrArg Prod.snd (Option.some_inj.mp h)
      dsimp only at hp
      rw [← hp]
      exact ciStripLit_suffix _ _ r1 h1

theorem noAdjNl_suffix (s t : Str) (h : t <:+ s) (hs : noAdjNl s = true) :
    noAdjNl t = true := by
  obtain ⟨u, rfl⟩ := h
  induction u with
  | nil => exact hs
  | cons a u ih => exact ih (noAdjNl_tail a (u ++ t) hs)

theorem expLoop_single (b : Str) : (expLoop [b] []).length ≤ 1 := by
  simp only [expLoop]
  rcases hb : buildExpEntry b with _ | e
  · simp [expLoop]
  · dsimp only
    rw [if_neg (by simp)]
    simp [expLoop]

theorem eduLoop_single (b : Str) : (eduLoop [b] []).length ≤ 1 := by
  simp only [eduLoop]
  rcases hb : buildEduEntry b with _ | e
  · simp [eduLoop]
  · dsimp only
    rw [if_neg (by simp)]
    simp [eduLoop]

theorem parse_basic_fields_experience (text : Str) :
    (parse_basic_fields text).experience =
      parse_experience_section (joinNl (linesOf text)) := rfl

theorem parse_basic_fields_education (text : Str) :
    (parse_basic_fields text).education =
      parse_education_section (joinNl (linesOf text)) := rfl

/-- C3: `parse_basic_fields` rebuilds its working text by joining trimmed
non-empty lines with single newlines, so the blank-line chunk splitter
(`\n{2,}`) receives a gap-free text and returns exactly one chunk per
section; hence the full pipeline yields at most one experience entry and at
most one education entry. -/
theorem claim_C3 (text : Str) :
    (parse_basic_fields text).experience.length ≤ 1 ∧
    (parse_basic_fields text).education.length ≤ 1 ∧
    (∀ pre body, splitExpAnchor (joinNl (linesOf text)) = some (pre, body) →
      splitBlank body = [body]) ∧
    (∀ pre body, splitEduAnchor (joinNl (linesOf text)) = some (pre, body) →
      splitBlank body = [body]) := by
  have hft : noAdjNl (joinNl (linesOf text)) = true :=
    noAdjNl_joinNl (linesOf text) (fun l hl => linesOf_mem text l hl)
  have hbody : ∀ pre body, splitExpAnchor (joinNl (linesOf text)) = some (pre, body) →
      splitBlank body = [body] := fun pre body h =>
    splitBlank_noAdj body
      (noAdjNl_suffix _ body (splitExpAnchor_suffix _ pre body h) hft)
  have hbody2 : ∀ pre body, splitEduAnchor (joinNl (linesOf text)) = some (pre, body) →
      splitBlank body = [body] := fun pre body h =>
    splitBlank_noAdj body
      (noAdjNl_suffix _ body (splitEduAnchor_suffix _ pre body h) hft)
  refine ⟨?_, ?_, hbody, hbody2⟩
  · rw [parse_basic_fields_experience]
    unfold parse_experience_section
    rcases ha : splitExpAnchor (joinNl (linesOf text)) with _ | ⟨pre, body⟩
    · simp
    · dsimp only
      rw [hbody pre body ha]
      exact expLoop_single body
  · rw [parse_basic_fields_education]
    unfold parse_education_section
    rcases ha : splitEduAnchor (joinNl (linesOf text)) with _ | ⟨pre, body⟩
    · simp
    · dsimp only
      rw [hbody2 pre body ha]
      exact eduLoop_single body

/-- Witness for C3: the chunk-splitter clause applied at a concrete résumé
whose experience section body is a single gap-free chunk. -/
theorem claim_C3_witness :
    splitBlank (("\nSoftware Engineer\nAcme Corp\n2018 - 2021\nBuilt scalable APIs serving millions of requests daily").data) =
      [("\nSoftware Engineer\nAcme Corp\n2018 - 2021\nBuilt scalable APIs serving millions of requests daily").data] :=
  (claim_C3 (("John Smith\nWORK EXPERIENCE\nSoftware Engineer\nAcme Corp\n2018 - 2021\nBuilt scalable APIs serving millions of requests daily").data)).2.2.1
    (("John Smith\n").data)
    (("\nSoftware Engineer\nAcme Corp\n2018 - 2021\nBuilt scalable APIs serving millions of requests daily").data)
    (by decide)

theorem mem_parse_experience (t : Str) (e : ExperienceEntry)
    (he : e ∈ parse_experience_section t) : ∃ c, buildExpEntry c = some e := by
  unfold parse_experience_section at he
  rcases ha : splitExpAnchor t with _ | ⟨pre, post⟩
  · rw [ha] at he; simp at he
  · rw [ha] at he
    dsimp only at he
    rcases mem_expLoop _ _ _ he with h | h
    · simp at h
    · exact h

theorem mem_parse_education (t : Str) (d : EducationEntry)
    (hd : d ∈ parse_education_section t) : ∃ c, buildEduEntry c = some d := by
  unfold parse_education_section at hd
  rcases ha : splitEduAnchor t with _ | ⟨pre, post⟩
  · rw [ha] at hd; simp at hd
  · rw [ha] at hd
    dsimp only at hd
    rcases mem_eduLoop _ _ _ hd with h | h
    · simp at h
    · exact h

/-- C4: for every input text, the parsed result satisfies the cap invariants:
at most 5 experience entries, at most 3 education entries, and at most 8
responsibility lines per experience entry. -/
theorem claim_C4 (text : Str) :
    (parse_basic_fields text).experience.length ≤ 5 ∧
    (parse_basic_fields text).education.length ≤ 3 ∧
    ∀ e ∈ (parse_basic_fields text).experience, e.responsibilities.length ≤ 8 := by
  refine ⟨?_, ?_, ?_⟩
  · rw [parse_basic_fields_experience]
    exact parse_experience_section_length_le _
  · rw [parse_basic_fields_education]
    exact parse_education_section_length_le _
  · intro e he
    rw [parse_basic_fields_experience] at he
    exact parse_experience_section_resp_le _ e he

/-- Witness for C4 at a concrete résumé with one experience entry. -/
theorem claim_C4_witness :
    (parse_basic_fields (("John Smith\nWORK EXPERIENCE\nSoftware Engineer\nAcme Corp\n2018 - 2021\nBuilt scalable APIs serving millions of requests daily").data)).experience.length ≤ 5 ∧
    ({ job_title := ("Software Engineer").data
       company := some (("Acme Corp").data)
       start_date := some (("2018").data)
       end_date := some (("2021").data)
       responsibilities := [("Built scalable APIs serving millions of requests daily").data]
       job_title_confidence := mkRat 85 100
       company_confidence := mkRat 80 100 } : ExperienceEntry).responsibilities.length ≤ 8 :=
  ⟨(claim_C4 (("John Smith\nWORK EXPERIENCE\nSoftware Engineer\nAcme Corp\n2018 - 2021\nBuilt scalable APIs serving millions of requests daily").data)).1,
   (claim_C4 (("John Smith\nWORK EXPERIENCE\nSoftware Engineer\nAcme Corp\n2018 - 2021\nBuilt scalable APIs serving millions of requests daily").data)).2.2
     { job_title := ("Software Engineer").data
       company := some (("Acme Corp").data)
       start_date := some (("2018").data)
       end_date := some (("2021").data)
       responsibilities := [("Built scalable APIs serving millions of requests daily").data]
       job_title_confidence := mkRat 85 100
       company_confidence := mkRat 80 100 }
     (by decide)⟩

/-- C5: the full-resume scenario.  A text with a `WORK EXPERIENCE` section
whose single chunk is `"Software Engineer\nAcme Corp\n2018 - 2021\nBuilt
scalable APIs serving millions of requests daily"` parses to exactly one
experience entry with the scenario's job title, company, start and end dates,
and exactly one responsibility line (the date line is dropped for being under
25 characters). -/
theorem claim_C5 :
    (parse_basic_fields (("John Smith\nWORK EXPERIENCE\nSoftware Engineer\nAcme Corp\n2018 - 2021\nBuilt scalable APIs serving millions of requests daily").data)).experience =
      [{ job_title := ("Software Engineer").data
         company := some (("Acme Corp").data)
         start_date := some (("2018").data)
         end_date := some (("2021").data)
         responsibilities := [("Built scalable APIs serving millions of requests daily").data]
         job_title_confidence := mkRat 85 100
         company_confidence := mkRat 80 100 }] := by
  decide

theorem getO_ne_nil (o : Option Str) (h : truthyO o = true) : getO o ≠ [] := by
  rcases o with _ | s
  · simp [truthyO] at h
  · simp only [truthyO] at h
    simp only [getO]
    intro h0
    subst h0
    simp at h

theorem conf_iff_pos (o : Option Str) (q : ℚ) (hq : 0 < q) :
    (0 < (if truthyO o = true then q else 0) ↔ truthyO o = true) ∧
    (truthyO o = false → (if truthyO o = true then q else 0) = 0) := by
  rcases h : truthyO o with _ | _
  · simp [h]
  · simp [h, hq]

theorem buildExp_confidences (c : Str) (e : ExperienceEntry)
    (hb : buildExpEntry c = some e) :
    (0 < e.job_title_confidence ↔ e.job_title ≠ []) ∧
    (e.job_title = [] → e.job_title_confidence = 0) ∧
    (0 < e.company_confidence ↔ truthyO e.company = true) ∧
    (truthyO e.company = false → e.company_confidence = 0) := by
  unfold buildExpEntry at hb
  dsimp only at hb
  by_cases h1 : (stripWS c).length < 30
  · rw [if_pos h1] at hb; exact absurd hb (by simp)
  · rw [if_neg h1] at hb
    rcases hl : linesOf (stripWS c) with _ | ⟨l0, rest⟩
    · rw [hl] at hb; exact absurd hb (by simp)
    · rw [hl] at hb
      dsimp only at hb
      have he := Option.some_inj.mp hb
      subst he
      dsimp only
      refine ⟨?_, ?_, (conf_iff_pos _ _ (by decide)).1, (conf_iff_pos _ _ (by decide)).2⟩
      · rcases l0 with _ | ⟨a, t⟩
        · simp
        · have hq : (0 : ℚ) < mkRat 85 100 := by decide
          simp [hq]
      · rcases l0 with _ | ⟨a, t⟩
        · intro _; simp
        · intro h0; simp at h0

theorem buildEdu_confidences (c : Str) (d : EducationEntry)
    (hb : buildEduEntry c = some d) :
    (0 < d.degree_confidence ↔ d.degree ≠ []) ∧
    (d.degree = [] → d.degree_confidence = 0) ∧
    (0 < d.institution_confidence ↔ truthyO d.institution = true) ∧
    (truthyO d.institution = false → d.institution_confidence = 0) := by
  unfold buildEduEntry at hb
  dsimp only at hb
  by_cases h1 : (stripWS c).length < 20
  · rw [if_pos h1] at hb; exact absurd hb (by simp)
  · rw [if_neg h1] at hb
    by_cases h2 : (!truthyO (eduDegree (stripWS c))) = true
    · rw [if_pos h2] at hb; exact absurd hb (by simp)
    · rw [if_neg h2] at hb
      have htr : truthyO (eduDegree (stripWS c)) = true := by
        rcases h3 : truthyO (eduDegree (stripWS c)) with _ | _
        · exact absurd (by simp [h3]) h2
        · rfl
      have hd := Option.some_inj.mp hb
      subst hd
      dsimp only
      refine ⟨?_, ?_, (conf_iff_pos _ _ (by decide)).1, (conf_iff_pos _ _ (by decide)).2⟩
      · rw [if_pos htr]
        constructor
        · intro _
          exact getO_ne_nil _ htr
        · intro _
          decide
      · intro h0
        exact absurd h0 (getO_ne_nil _ htr)

theorem pbf_conf_name (text : Str) :
    (parse_basic_fields text).name_confidence =
      if truthyO ((parse_basic_fields text).name) = true then mkRat 90 100 else 0 := rfl

theorem pbf_conf_email (text : Str) :
    (parse_basic_fields text).email_confidence =
      if truthyO ((parse_basic_fields text).email) = true then mkRat 95 100 else 0 := rfl

theorem pbf_conf_phone (text : Str) :
    (parse_basic_fields text).phone_confidence =
      if truthyO ((parse_basic_fields text).phone) = true then mkRat 90 100 else 0 := rfl

theorem pbf_conf_location (text : Str) :
    (parse_basic_fields text).location_confidence =
      if truthyO ((parse_basic_fields text).location) = true then mkRat 80 100 else 0 := rfl

theorem pbf_conf_summary (text : Str) :
    (parse_basic_fields text).summary_confidence =
      if truthyO ((parse_basic_fields text).summary) = true then mkRat 80 100 else 0 := rfl

/-- C8: confidence tracks presence.  For every input text, each contact field
of the parsed record has positive confidence exactly when the field is
present (non-null and non-empty) and confidence exactly 0 when absent; and
the per-entry job title / company / degree / institution confidences behave
the same way. -/
theorem claim_C8 (text : Str) :
    ((0 < (parse_basic_fields text).name_confidence ↔
        truthyO ((parse_basic_fields text).name) = true) ∧
      (truthyO ((parse_basic_fields text).name) = false →
        (parse_basic_fields text).name_confidence = 0)) ∧
    ((0 < (parse_basic_fields text).email_confidence ↔
        truthyO ((parse_basic_fields text).email) = true) ∧
      (truthyO ((parse_basic_fields text).email) = false →
        (parse_basic_fields text).email_confidence = 0)) ∧
    ((0 < (parse_basic_fields text).phone_confidence ↔
        truthyO ((parse_basic_fields text).phone) = true) ∧
      (truthyO ((parse_basic_fields text).phone) = false →
        (parse_basic_fields text).phone_confidence = 0)) ∧
    ((0 < (parse_basic_fields text).location_confidence ↔
        truthyO ((parse_basic_fields text).location) = true) ∧
      (truthyO ((parse_basic_fields text).location) = false →
        (parse_basic_fields text).location_confidence = 0)) ∧
    ((0 < (parse_basic_fields text).summary_confidence ↔
        truthyO ((parse_basic_fields text).summary) = true) ∧
      (truthyO ((parse_basic_fields text).summary) = false →
        (parse_basic_fields text).summary_confidence = 0)) ∧
    (∀ e ∈ (parse_basic_fields text).experience,
      (0 < e.job_title_confidence ↔ e.job_title ≠ []) ∧
      (e.job_title = [] → e.job_title_confidence = 0) ∧
      (0 < e.company_confidence ↔ truthyO e.company = true) ∧
      (truthyO e.company = false → e.company_confidence = 0)) ∧
    (∀ d ∈ (parse_basic_fields text).education,
      (0 < d.degree_confidence ↔ d.degree ≠ []) ∧
      (d.degree = [] → d.degree_confidence = 0) ∧
      (0 < d.institution_confidence ↔ truthyO d.institution = true) ∧
      (truthyO d.institution = false → d.institution_confidence = 0)) := by
  refine ⟨?_, ?_, ?_, ?_, ?_, ?_, ?_⟩
  · rw [pbf_conf_name]
    exact conf_iff_pos _ _ (by decide)
  · rw [pbf_conf_email]
    exact conf_iff_pos _ _ (by decide)
  · rw [pbf_conf_phone]
    exact conf_iff_pos _ _ (by decide)
  · rw [pbf_conf_location]
    exact conf_iff_pos _ _ (by decide)
  · rw [pbf_conf_summary]
    exact conf_iff_pos _ _ (by decide)
  · intro e he
    rw [parse_basic_fields_experience] at he
    obtain ⟨c, hc⟩ := mem_parse_experience _ e he
    exact buildExp_confidences c e hc
  · intro d hd
    rw [parse_basic_fields_education] at hd
    obtain ⟨c, hc⟩ := mem_parse_education _ d hd
    exact buildEdu_confidences c d hc

/-- Witness for C8: the name clause at a concrete résumé, and the per-entry
clause at its concrete experience entry. -/
theorem claim_C8_witness :
    (0 < (parse_basic_fields (("Jane Doe\njane@x.com\nNo other sections").data)).name_confidence ↔
      truthyO ((parse_basic_fields (("Jane Doe\njane@x.com\nNo other sections").data)).name) = true) ∧
    (0 < ({ job_title := ("Software Engineer").data
            company := some (("Acme Corp").data)
            start_date := some (("2018").data)
            end_date := some (("2021").data)
            responsibilities := [("Built scalable APIs serving millions of requests daily").data]
            job_title_confidence := mkRat 85 100
            company_confidence := mkRat 80 100 } : ExperienceEntry).job_title_confidence ↔
      ({ job_title := ("Software Engineer").data
         company := some (("Acme Corp").data)
         start_date := some (("2018").data)
         end_date := some (("2021").data)
         responsibilities := [("Built scalable APIs serving millions of requests daily").data]
         job_title_confidence := mkRat 85 100
         company_confidence := mkRat 80 100 } : ExperienceEntry).job_title ≠ []) :=
  ⟨((claim_C8 (("Jane Doe\njane@x.com\nNo other sections").data)).1).1,
   (((claim_C8 (("John Smith\nWORK EXPERIENCE\nSoftware Engineer\nAcme Corp\n2018 - 2021\nBuilt scalable APIs serving millions of requests daily").data)).2.2.2.2.2.1
     { job_title := ("Software Engineer").data
       company := some (("Acme Corp").data)
       start_date := some (("2018").data)
       end_date := some (("2021").data)
       responsibilities := [("Built scalable APIs serving millions of requests daily").data]
       job_title_confidence := mkRat 85 100
       company_confidence := mkRat 80 100 }
     (by decide)).1)⟩

structure AtsExperience where
  company : Option Str
  start_date : Option Str
  end_date : Option Str
  responsibilities : List Str
deriving DecidableEq

/-- The fields of the parsed-resume dict that
`check_ats_compatibility_advanced` and `generate_recommendations` read. -/
structure AtsParsed where
  email : Option Str
  phone : Option Str
  summary : Option Str
  experience : List AtsExperience
  education : List EducationEntry
  skills : SkillSet
deriving DecidableEq

/-- Models `sum(len(v) for v in skills.values() if isinstance(v, list))`. -/
def totalSkills (s : SkillSet) : Nat :=
  s.programming_languages.length + s.frameworks_and_libraries.length +
  s.cloud_and_infra.length + s.databases.length + s.dev_tools.length

/-- Models `not exp.get("company") or exp.get("company") == "N/A"`. -/
def companyMissing (c : Option Str) : Bool :=
  !truthyO c || decide (c = some (("N/A").data))

/-- The per-entry quality loop of `check_ats_compatibility_advanced`: each of
its three checks `break`s out of the whole loop at the first entry that
triggers it, so the loop's whole effect is the first triple found. -/
def atsExpLoop : Nat → List AtsExperience → Int × List Str × List Str
  | _, [] => (0, [], [])
  | idx, e :: es =>
    if companyMissing e.company then
      (-10, [(("Position #").data ++ (Nat.repr (idx + 1)).data ++
        (" missing company name - ATS cannot verify").data)], [])
    else if !truthyO e.start_date || !truthyO e.end_date then
      (-5, [], [("Some positions have unclear date ranges").data])
    else if e.responsibilities.isEmpty then
      (-3, [], [("Some positions lack detailed responsibilities").data])
    else atsExpLoop (idx + 1) es

/-- The decorative-character set of the formatting check (the characters
appear mojibake-d in the source itself). -/
def specialChars : Str :=
  ("‚Ä¢‚ó¶‚ñ™‚ñ´‚òÖ‚òÜ‚óÜ‚óá").data

structure AtsReport where
  ats_friendly : Bool
  score : Int
  grade : Str
  emoji : Str
  critical_issues : List Str
  warnings : List Str
  recommendations : List Str
  total_skills : Nat
  recommended_minimum : Nat
  keyword_status : Str
deriving DecidableEq

/-- Embeds `check_ats_compatibility_advanced` from `src/main.py` (the
`keyword_density` sub-dict is flattened into the last three fields). -/
def check_ats_compatibility_advanced (parsed : AtsParsed) (raw_text : Str) : AtsReport :=
  let score0 : Int := 100
  let expMissing := parsed.experience.isEmpty
  let score1 := if expMissing then score0 - 30 else score0
  let crit1 : List Str :=
    if expMissing then [("Missing work experience section - ATS will reject").data] else []
  let eduMissing := parsed.education.isEmpty
  let score2 := if eduMissing then score1 - 20 else score1
  let crit2 :=
    if eduMissing then crit1 ++ [("Missing education section - ATS may flag").data] else crit1
  let skillsMissing := totalSkills parsed.skills = 0
  let score3 := if skillsMissing then score2 - 20 else score2
  let crit3 :=
    if skillsMissing then
      crit2 ++ [("Missing skills section - ATS cannot match keywords").data]
    else crit2
  let emailMissing := !truthyO parsed.email
  let score4 := if emailMissing then score3 - 15 else score3
  let crit4 :=
    if emailMissing then
      crit3 ++ [("Missing email address - ATS cannot contact you").data]
    else crit3
  let phoneMissing := !truthyO parsed.phone
  let score5 := if phoneMissing then score4 - 3 else score4
  let warn1 : List Str :=
    if phoneMissing then [("Phone number recommended for ATS").data] else []
  let loopRes := atsExpLoop 0 parsed.experience
  let score6 := score5 + loopRes.1
  let crit5 := crit4 ++ loopRes.2.1
  let warn2 := warn1 ++ loopRes.2.2
  let ts := totalSkills parsed.skills
  let score7 := if ts < 5 then score6 - 15 else if ts < 8 then score6 - 5 else score6
  let crit6 :=
    if ts < 5 then
      crit5 ++ [("Too few skills listed - ATS needs 8-15 relevant keywords").data]
    else crit5
  let warn3 :=
    if ts < 5 then warn2
    else if ts < 8 then
      warn2 ++ [("Add 3-5 more skills for better ATS keyword matching").data]
    else warn2
  let summaryMissing := !truthyO parsed.summary || (getO parsed.summary).length < 50
  let score8 := if summaryMissing then score7 - 5 else score7
  let warn4 :=
    if summaryMissing then
      warn3 ++ [("Professional summary helps ATS understand your profile").data]
    else warn3
  let warn5 :=
    if raw_text.contains '\t' then
      warn4 ++ [("Tabs detected - use spaces for better ATS compatibility").data]
    else warn4
  let specialCount := (raw_text.filter (fun ch => specialChars.contains ch)).length
  let warn6 :=
    if 50 < specialCount then
      warn5 ++ [("Excessive special characters may confuse ATS").data]
    else warn5
  { ats_friendly := decide (70 ≤ score8)
    score := max score8 0
    grade :=
      if 90 ≤ score8 then ("Excellent").data
      else if 80 ≤ score8 then ("Good").data
      else if 70 ≤ score8 then ("Pass").data
      else if 60 ≤ score8 then ("Marginal").data
      else ("Fail").data
    emoji :=
      if 90 ≤ score8 then ("üåü").data
      else if 80 ≤ score8 then ("‚úÖ").data
      else if 70 ≤ score8 then ("üëç").data
      else if 60 ≤ score8 then ("‚ö†Ô∏è").data
      else ("‚ùå").data
    critical_issues := crit6
    warnings := warn6
    recommendations :=
      [ ("Use standard section headers: 'Work Experience', 'Education', 'Skills'").data,
        ("Include clear date ranges for all positions (MM/YYYY - MM/YYYY format)").data,
        ("List 10-15 relevant skills and technologies as keywords").data,
        ("Avoid tables, text boxes, headers/footers, and images").data,
        ("Use standard fonts: Arial, Calibri, Times New Roman, or Helvetica").data,
        ("Save as .docx or .pdf format (PDF preferred)").data,
        ("Include keywords from target job descriptions").data,
        ("Spell out acronyms at least once (e.g., 'Applicant Tracking System (ATS)')").data,
        ("Use simple bullet points (‚Ä¢ or -) for lists").data,
        ("Keep formatting simple and consistent throughout").data ]
    total_skills := ts
    recommended_minimum := 10
    keyword_status := if 10 ≤ ts then ("good").data else ("needs_improvement").data }

/-- C7: a parsed resume with no experience, no education, and zero skills is
never ATS-friendly, its critical issues include one entry for each missing
section, and its (floored) score is at most 30; moreover, for every input,
`ats_friendly` holds exactly when the floored score is at least 70. -/
theorem claim_C7 (parsed : AtsParsed) (raw_text : Str) :
    ((parsed.experience = [] ∧ parsed.education = [] ∧ totalSkills parsed.skills = 0) →
      ((check_ats_compatibility_advanced parsed raw_text).ats_friendly = false ∧
       ("Missing work experience section - ATS will reject").data ∈
         (check_ats_compatibility_advanced parsed raw_text).critical_issues ∧
       ("Missing education section - ATS may flag").data ∈
         (check_ats_compatibility_advanced parsed raw_text).critical_issues ∧
       ("Missing skills section - ATS cannot match keywords").data ∈
         (check_ats_compatibility_advanced parsed raw_text).critical_issues ∧
       (check_ats_compatibility_advanced parsed raw_text).score ≤ 30)) ∧
    ((check_ats_compatibility_advanced parsed raw_text).ats_friendly = true ↔
      70 ≤ (check_ats_compatibility_advanced parsed raw_text).score) := by
  obtain ⟨em, ph, su, ex, ed, sk⟩ := parsed
  refine ⟨?_, ?_⟩
  · rintro ⟨hexp, hedu, hsk⟩
    dsimp only at hexp hedu hsk
    subst hexp
    subst hedu
    unfold check_ats_compatibility_advanced
    dsimp only
    simp only [List.isEmpty_nil, hsk, atsExpLoop, List.append_nil, if_true,
      eq_self_iff_true, Nat.zero_lt_succ, Nat.lt_irrefl]
    refine ⟨?_, ?_, ?_, ?_, ?_⟩ <;>
      split_ifs <;>
        simp_all [List.mem_append]
  · unfold check_ats_compatibility_advanced
    dsimp only
    constructor
    · intro h
      rw [decide_eq_true_eq] at h
      exact le_max_of_le_left h
    · intro h
      rw [decide_eq_true_eq]
      rcases le_max_iff.mp h with h | h
      · exact h
      · exact absurd h (by norm_num)

/-- The all-empty skill map. -/
def emptySkillSet : SkillSet where
  programming_languages := []
  frameworks_and_libraries := []
  cloud_and_infra := []
  databases := []
  dev_tools := []

/-- An entirely empty parsed resume, for concrete instantiations. -/
def emptyAtsParsed : AtsParsed where
  email := none
  phone := none
  summary := none
  experience := []
  education := []
  skills := emptySkillSet

/-- Witness for C7 at the empty parsed resume. -/
theorem claim_C7_witness :
    (check_ats_compatibility_advanced emptyAtsParsed []).ats_friendly = false ∧
    (check_ats_compatibility_advanced emptyAtsParsed []).score ≤ 30 := by
  have h := (claim_C7 emptyAtsParsed []).1 ⟨rfl, rfl, rfl⟩
  exact ⟨h.1, h.2.2.2.2⟩

/-- Models `any(kw in str(issue).lower() for issue in issues)`. -/
def issueMentions (issues : List Str) (kw : Str) : Bool :=
  issues.any (fun i => containsSub (lowerStr i) kw)

/-- The canned bucket suggestions of `generate_recommendations`, transcribed
exactly (the leading emoji bytes appear mojibake-d in the source itself). -/
def recEmail : Str :=
  ("üìß Add your professional email address at the top of your resume").data

def recPhone : Str :=
  ("üì± Include your phone number to make it easy for recruiters to reach you").data

def recLink : Str :=
  ("üîó Add your LinkedIn profile URL - 90% of recruiters check LinkedIn").data

def recExperience : Str :=
  ("üíº Add at least 2-3 relevant work experiences with 3-5 bullet points each").data

def recCompany : Str :=
  ("üè¢ Include company names for all positions - ATS systems require this").data

def recSkills : Str :=
  ("üõ†Ô∏è List 10-15 technical skills relevant to your target role (include tools, languages, frameworks)").data

def recSummary : Str :=
  ("üìù Write a compelling 2-3 sentence professional summary highlighting your unique value").data

def recEducation : Str :=
  ("üéì Add your education (degree, institution, graduation year)").data

def recCerts : Str :=
  ("üèÜ Include relevant certifications or showcase 2-3 personal projects with GitHub links").data

def recBullets : Str :=
  ("üìä Expand your work experience bullet points - include quantifiable achievements").data

def tipVerbs : Str :=
  ("‚ú® Use action verbs to start bullet points (Led, Built, Improved, Launched)").data

def tipMetrics : Str :=
  ("üìà Include metrics and numbers to demonstrate impact (e.g., 'Improved performance by 40%')").data

/-- The ten keyword-bucket appends of `generate_recommendations`, in source
order; each bucket contributes at most one suggestion. -/
def bucketRecs (issues : List Str) : List Str :=
  (if issueMentions issues (("email").data) then [recEmail] else []) ++
  (if issueMentions issues (("phone").data) then [recPhone] else []) ++
  (if issueMentions issues (("linkedin").data) || issueMentions issues (("github").data) then
    [recLink] else []) ++
  (if issueMentions issues (("experience").data) then [recExperience] else []) ++
  (if issueMentions issues (("company").data) then [recCompany] else []) ++
  (if issueMentions issues (("skills").data) then [recSkills] else []) ++
  (if issueMentions issues (("summary").data) then [recSummary] else []) ++
  (if issueMentions issues (("education").data) then [recEducation] else []) ++
  (if issueMentions issues (("certification").data) || issueMentions issues (("project").data) then
    [recCerts] else []) ++
  (if issueMentions issues (("bullet").data) || issueMentions issues (("responsibilities").data) then
    [recBullets] else [])

/-- Embeds `generate_recommendations` from `src/main.py` (`parsed` is accepted
but never read, as in the source). -/
def generate_recommendations (issues : List Str) (_parsed : AtsParsed) : List Str :=
  let recs := bucketRecs issues
  let recs2 := if recs.length < 5 then recs ++ [tipVerbs] else recs
  let recs3 := if recs2.length < 5 then recs2 ++ [tipMetrics] else recs2
  recs3.take 7

/-- The twelve distinct canned strings, in append order. -/
def allRecList : List Str :=
  [recEmail, recPhone, recLink, recExperience, recCompany, recSkills, recSummary,
   recEducation, recCerts, recBullets, tipVerbs, tipMetrics]

theorem allRecList_nodup : allRecList.Nodup := by decide

theorem ite_singleton_sublist (c : Prop) [Decidable c] (x : Str) (l : List Str)
    (h : x ∈ l) : (if c then [x] else []).Sublist l := by
  split
  · simpa using h
  · exact List.nil_sublist l

theorem bucketRecs_sublist (issues : List Str) :
    (bucketRecs issues).Sublist
      ([recEmail] ++ [recPhone] ++ [recLink] ++ [recExperience] ++ [recCompany] ++
       [recSkills] ++ [recSummary] ++ [recEducation] ++ [recCerts] ++ [recBullets]) := by
  unfold bucketRecs
  refine List.Sublist.append (List.Sublist.append (List.Sublist.append
    (List.Sublist.append (List.Sublist.append (List.Sublist.append
    (List.Sublist.append (List.Sublist.append (List.Sublist.append
    ?_ ?_) ?_) ?_) ?_) ?_) ?_) ?_) ?_) ?_ <;>
      refine ite_singleton_sublist _ _ _ (by simp)

theorem padded_sublist {l T : List Str} (t : Str) {cond : Prop} [Decidable cond]
    (h : l.Sublist T) : (if cond then l ++ [t] else l).Sublist (T ++ [t]) := by
  split
  · exact List.Sublist.append h (List.Sublist.refl _)
  · exact h.trans (List.sublist_append_left T [t])

theorem genRecs_sublist (issues : List Str) (p : AtsParsed) :
    (generate_recommendations issues p).Sublist allRecList := by
  unfold generate_recommendations
  dsimp only
  refine (List.take_sublist 7 _).trans ?_
  have hall : allRecList = (([recEmail] ++ [recPhone] ++ [recLink] ++ [recExperience] ++
      [recCompany] ++ [recSkills] ++ [recSummary] ++ [recEducation] ++ [recCerts] ++
      [recBullets]) ++ [tipVerbs]) ++ [tipMetrics] := rfl
  rw [hall]
  exact padded_sublist tipMetrics (padded_sublist tipVerbs (bucketRecs_sublist issues))

/-- C10 counterexample: with exactly four triggered buckets the code appends
only ONE generic tip (the first `len < 5` pad brings the list to five, so the
second pad is skipped), contradicting the claim that two generic tips are
appended whenever fewer than five buckets were triggered. -/
theorem claim_C10_counterexample :
    (bucketRecs [("email").data, ("phone").data, ("experience").data, ("company").data]).length
        = 4 ∧
    generate_recommendations
        [("email").data, ("phone").data, ("experience").data, ("company").data]
        emptyAtsParsed =
      [recEmail, recPhone, recExperience, recCompany, tipVerbs] ∧
    tipMetrics ∉ generate_recommendations
        [("email").data, ("phone").data, ("experience").data, ("company").data]
        emptyAtsParsed := by
  refine ⟨by decide, by decide, by decide⟩

/-- C10 amended: the recommendation list is at most 7 long and contains at
most one suggestion per bucket (it is duplicate-free); when at most three
buckets were triggered BOTH generic tips are appended, but when exactly four
were triggered only the first generic tip is appended (the code pads only up
to five entries). -/
theorem claim_C10 (issues : List Str) (parsed : AtsParsed) :
    (generate_recommendations issues parsed).length ≤ 7 ∧
    (generate_recommendations issues parsed).Nodup ∧
    ((bucketRecs issues).length ≤ 3 →
      generate_recommendations issues parsed = bucketRecs issues ++ [tipVerbs, tipMetrics]) ∧
    ((bucketRecs issues).length = 4 →
      generate_recommendations issues parsed = bucketRecs issues ++ [tipVerbs]) := by
  refine ⟨?_, ?_, ?_, ?_⟩
  · exact List.length_take_le 7 _
  · exact (genRecs_sublist issues parsed).nodup allRecList_nodup
  · intro h3
    unfold generate_recommendations
    dsimp only
    rw [if_pos (show (bucketRecs issues).length < 5 by omega)]
    rw [if_pos (by simp only [List.length_append, List.length_singleton]; omega)]
    rw [List.take_of_length_le (by simp only [List.length_append, List.length_singleton]; omega)]
    simp
  · intro h4
    unfold generate_recommendations
    dsimp only
    rw [if_pos (show (bucketRecs issues).length < 5 by omega)]
    rw [if_neg (by simp only [List.length_append, List.length_singleton]; omega)]
    exact List.take_of_length_le (by simp only [List.length_append, List.length_singleton]; omega)

/-- Witness for C10: the two-tip padding clause applied at a single-bucket
issue list. -/
theorem claim_C10_witness :
    (bucketRecs [("email").data]).length ≤ 3 ∧
    generate_recommendations [("email").data] emptyAtsParsed =
      bucketRecs [("email").data] ++ [tipVerbs, tipMetrics] :=
  ⟨by decide, (claim_C10 [("email").data] emptyAtsParsed).2.2.1 (by decide)⟩

/-!
Exception model for C9.  The Python code indexes `lines[0]` in the education
parser without a guard and calls `lines.index(line)` in the summary scan;
these are the only operations in `parse_basic_fields` and its callees that can
raise.  The `…E` variants below model exactly those operations in
`Except String`, leaving everything else as in the total embedding; the
refinement theorem shows the exceptional path is unreachable for every input.
-/

/-- Models Python `lst[0]` (raises `IndexError` on an empty list). -/
def headE {α : Type} : List α → Except String α
  | [] => Except.error ("IndexError: list index out of range")
  | a :: _ => Except.ok a

/-- Models Python `lst.index(x)` (raises `ValueError` when absent). -/
def indexE (x : Str) : List Str → Except String Nat
  | [] => Except.error ("ValueError: x not in list")
  | l :: ls => if l = x then Except.ok 0 else (indexE x ls).map (· + 1)

/-- `eduDegree` with the unguarded `lines[0]` evaluation made explicit. -/
def eduDegreeE (block : Str) : Except String (Option Str) :=
  let lines := linesOf block
  if degreeKeyword (lowerStr block) then
    match lines.find? (fun l => degreeKeyword (lowerStr l)) with
    | some dl =>
      if !dl.isEmpty then Except.ok (some dl)
      else (headE lines).map some
    | none => (headE lines).map some
  else Except.ok none

/-- `buildEduEntry` in the exception model. -/
def buildEduEntryE (block0 : Str) : Except String (Option EducationEntry) :=
  let block := stripWS block0
  if block.length < 20 then Except.ok none
  else do
    let degree ← eduDegreeE block
    if !truthyO degree then Except.ok none
    else
      Except.ok (some {
        degree := getO degree
        institution := eduInstitution block
        year := match findallYears block with
          | y :: _ => y
          | [] => []
        degree_confidence := if truthyO degree then mkRat 85 100 else 0
        institution_confidence := if truthyO (eduInstitution block) then mkRat 80 100 else 0 })

/-- `eduLoop` in the exception model. -/
def eduLoopE : List Str → List EducationEntry → Except String (List EducationEntry)
  | [], acc => Except.ok acc
  | c :: cs, acc => do
    let eo ← buildEduEntryE c
    match eo with
    | none => eduLoopE cs acc
    | some e =>
      let acc2 := acc ++ [e]
      if 3 ≤ acc2.length then Except.ok acc2 else eduLoopE cs acc2

/-- `parse_education_section` in the exception model. -/
def parse_education_sectionE (full_text : Str) : Except String (List EducationEntry) :=
  match splitEduAnchor full_text with
  | none => Except.ok []
  | some (_, edu_text) => eduLoopE (splitBlank edu_text) []

/-- The summary scan with `lines.index(line)` made explicit. -/
def findSummaryE (lines : List Str) : Except String (Option Str) :=
  match ((lines.drop 3).take 12).find? summaryKeyword with
  | none => Except.ok none
  | some l => do
    let idx ← indexE l lines
    Except.ok (if idx + 1 < lines.length then lines.get? (idx + 1) else none)

/-- `parse_basic_fields` in the exception model. -/
def parse_basic_fieldsE (text : Str) : Except String ParsedResume := do
  let lines := linesOf text
  let full_text := joinNl lines
  let name : Option Str := lines.head?
  let email := emailSearch full_text
  let phone := phoneSearch full_text
  let location := (lines.take 10).find? (fun l => l.contains ',' && !l.contains '@')
  let summary ← findSummaryE lines
  let experience_blocks := parse_experience_section full_text
  let education_blocks ← parse_education_sectionE full_text
  let skills := extract_skills full_text
  let role_level : Str :=
    if wordBoundaryMatch (("senior").data) (lowerStr full_text) then ("Senior").data
    else if wordBoundaryMatch (("junior").data) (lowerStr full_text) ||
        wordBoundaryMatch (("entry").data) (lowerStr full_text) then ("Junior").data
    else ("Mid-level").data
  let primary_role : Option Str :=
    if containsCI full_text (("devops").data) || containsCI full_text (("sysops").data) ||
        containsCI full_text (("system administrator").data) ||
        containsCI full_text (("infrastructure").data) then some (("Cloud / SysOps").data)
    else if containsCI full_text (("frontend").data) || containsCI full_text (("react").data) ||
        containsCI full_text (("ui").data) then some (("Frontend").data)
    else if containsCI full_text (("backend").data) || containsCI full_text (("api").data) ||
        containsCI full_text (("microservices").data) then some (("Backend").data)
    else none
  Except.ok
    { name := name
      email := email
      phone := phone
      location := location
      role_level := role_level
      primary_role := primary_role
      years_of_experience_total := none
      years_of_experience_in_tech := none
      github := []
      portfolio := []
      summary := summary
      experience := experience_blocks
      education := education_blocks
      skills := skills
      raw := text
      name_confidence := if truthyO name then mkRat 90 100 else 0
      email_confidence := if truthyO email then mkRat 95 100 else 0
      phone_confidence := if truthyO phone then mkRat 90 100 else 0
      location_confidence := if truthyO location then mkRat 80 100 else 0
      summary_confidence := if truthyO summary then mkRat 80 100 else 0 }

theorem exceptBind_ok {α β : Type} (a : α) (f : α → Except String β) :
    (Except.ok a >>= f) = f a := rfl

theorem headE_ok {α : Type} (l : List α) (d : α) (h : l ≠ []) :
    headE l = Except.ok (l.headD d) := by
  rcases l with _ | ⟨a, t⟩
  · exact absurd rfl h
  · rfl

theorem indexE_ok : ∀ (l : List Str) (x : Str), x ∈ l →
    indexE x l = Except.ok (idxOfStr x l)
  | [], x, h => absurd h (List.not_mem_nil x)
  | l :: ls, x, h => by
    simp only [indexE, idxOfStr]
    by_cases he : l = x
    · rw [if_pos he, if_pos he]
    · rw [if_neg he, if_neg he]
      rcases List.mem_cons.mp h with h2 | h2
      · exact absurd h2.symm he
      · rw [indexE_ok ls x h2]
        rfl

theorem dropWhile_head_false {p : Char → Bool} : ∀ {l : Str} {a : Char} {t : Str},
    l.dropWhile p = a :: t → p a = false := by
  intro l
  induction l with
  | nil =>
    intro a t h
    simp at h
  | cons c cs ih =>
    intro a t h
    rw [List.dropWhile_cons] at h
    split at h
    · exact ih h
    · rename_i hpc
      injection h with h1 h2
      subst h1
      simpa using hpc

theorem stripIf_exists_not (p : Char → Bool) (l : Str) (h : stripIf p l ≠ []) :
    ∃ x ∈ stripIf p l, p x = false := by
  have h2 : (l.dropWhile p).reverse.dropWhile p ≠ [] := by
    intro h0
    apply h
    unfold stripIf
    rw [h0]
    rfl
  rcases hv : (l.dropWhile p).reverse.dropWhile p with _ | ⟨a, t⟩
  · exact absurd hv h2
  · refine ⟨a, ?_, dropWhile_head_false hv⟩
    unfold stripIf
    rw [hv, List.mem_reverse]
    simp

theorem stripIf_cons_of_pos (p : Char → Bool) (c : Char) (x : Str) (h : p c = true) :
    stripIf p (c :: x) = stripIf p x := by
  unfold stripIf
  rw [List.dropWhile_cons_of_pos h]

theorem stripWS_cons_ws (c : Char) (x : Str) (h : isWs c = true) :
    stripWS (c :: x) = stripWS x := stripIf_cons_of_pos isWs c x h

theorem stripIf_cons_ne_nil (p : Char → Bool) (c : Char) (x : Str) (h : p c = false) :
    stripIf p (c :: x) ≠ [] := by
  unfold stripIf
  rw [List.dropWhile_cons_of_neg (by simp [h])]
  intro h0
  rw [List.reverse_eq_nil_iff, List.dropWhile_eq_nil_iff] at h0
  have hc := h0 c (by simp)
  simp [h] at hc

theorem splitNl_cons_shape (c : Char) (cs : Str) (hc : c ≠ '\n') :
    ∃ s0 ss, splitNl cs = s0 :: ss ∧ splitNl (c :: cs) = (c :: s0) :: ss := by
  rcases hx : splitNl cs with _ | ⟨s0, ss⟩
  · exact absurd hx (splitNl_ne_nil cs)
  · exact ⟨s0, ss, rfl, by simp [splitNl, hc, hx]⟩

theorem linesOf_cons_ws (c : Char) (cs : Str) (h : isWs c = true) :
    linesOf (c :: cs) = linesOf cs := by
  by_cases hc : c = '\n'
  · subst hc
    unfold linesOf
    rw [show splitNl ('\n' :: cs) = [] :: splitNl cs from by simp [splitNl]]
    simp [stripWS, stripIf]
  · obtain ⟨s0, ss, hsp, hsp2⟩ := splitNl_cons_shape c cs hc
    unfold linesOf
    rw [hsp, hsp2]
    simp only [List.map_cons, List.filter_cons]
    rw [stripWS_cons_ws c s0 h]

theorem linesOf_cons_not_ws (c : Char) (cs : Str) (h : isWs c = false) :
    linesOf (c :: cs) ≠ [] := by
  have hc : c ≠ '\n' := by
    intro h0
    subst h0
    simp [isWs] at h
  obtain ⟨s0, ss, hsp, hsp2⟩ := splitNl_cons_shape c cs hc
  unfold linesOf
  rw [hsp2]
  simp only [List.map_cons, List.filter_cons]
  have hne := stripIf_cons_ne_nil isWs c s0 h
  rcases he : stripWS (c :: s0) with _ | ⟨a, t⟩
  · exact absurd he hne
  · simp

theorem linesOf_ne_nil_of_exists : ∀ s : Str, (∃ x ∈ s, isWs x = false) →
    linesOf s ≠ [] := by
  intro s
  induction s with
  | nil =>
    rintro ⟨x, hx, -⟩
    simp at hx
  | cons c cs ih =>
    intro h
    rcases hw : isWs c with _ | _
    · exact linesOf_cons_not_ws c cs hw
    · rw [linesOf_cons_ws c cs hw]
      apply ih
      obtain ⟨x, hx, hxw⟩ := h
      rcases List.mem_cons.mp hx with rfl | hx2
      · rw [hw] at hxw
        simp at hxw
      · exact ⟨x, hx2, hxw⟩

theorem linesOf_stripWS_ne_nil (c : Str) (h : stripWS c ≠ []) :
    linesOf (stripWS c) ≠ [] :=
  linesOf_ne_nil_of_exists _ (stripIf_exists_not isWs c h)

theorem eduDegreeE_ok (block : Str) (h : linesOf block ≠ []) :
    eduDegreeE block = Except.ok (eduDegree block) := by
  unfold eduDegreeE eduDegree
  dsimp only
  by_cases h1 : degreeKeyword (lowerStr block) = true
  · rw [if_pos h1, if_pos h1]
    rcases hf : (linesOf block).find? (fun l => degreeKeyword (lowerStr l)) with _ | dl
    · rw [headE_ok _ [] h]
      rfl
    · dsimp only
      by_cases h2 : (!dl.isEmpty) = true
      · rw [if_pos h2, if_pos h2]
      · rw [if_neg h2, if_neg h2, headE_ok _ [] h]
        rfl
  · rw [if_neg h1, if_neg h1]

theorem buildEduEntryE_ok (c : Str) :
    buildEduEntryE c = Except.ok (buildEduEntry c) := by
  unfold buildEduEntryE buildEduEntry
  dsimp only
  by_cases h1 : (stripWS c).length < 20
  · rw [if_pos h1, if_pos h1]
  · rw [if_neg h1, if_neg h1]
    have hne : stripWS c ≠ [] := by
      intro h0
      rw [h0] at h1
      simp at h1
    rw [eduDegreeE_ok _ (linesOf_stripWS_ne_nil c hne)]
    rw [exceptBind_ok]
    by_cases h2 : (!truthyO (eduDegree (stripWS c))) = true
    · rw [if_pos h2, if_pos h2]
    · rw [if_neg h2, if_neg h2]

theorem eduLoopE_ok : ∀ (cs : List Str) (acc : List EducationEntry),
    eduLoopE cs acc = Except.ok (eduLoop cs acc)
  | [], acc => rfl
  | c :: cs, acc => by
    simp only [eduLoopE, eduLoop, buildEduEntryE_ok c, exceptBind_ok]
    rcases buildEduEntry c with _ | e
    · exact eduLoopE_ok cs acc
    · dsimp only
      by_cases h3 : 3 ≤ (acc ++ [e]).length
      · rw [if_pos h3, if_pos h3]
      · rw [if_neg h3, if_neg h3]
        exact eduLoopE_ok cs (acc ++ [e])

theorem parse_education_sectionE_ok (t : Str) :
    parse_education_sectionE t = Except.ok (parse_education_section t) := by
  unfold parse_education_sectionE parse_education_section
  rcases splitEduAnchor t with _ | ⟨pre, post⟩
  · rfl
  · exact eduLoopE_ok _ []

theorem findSummaryE_ok (lines : List Str) :
    findSummaryE lines = Except.ok (findSummary lines) := by
  unfold findSummaryE findSummary
  rcases hf : ((lines.drop 3).take 12).find? summaryKeyword with _ | l
  · rfl
  · have hmem : l ∈ lines :=
      List.mem_of_mem_drop (List.mem_of_mem_take (List.mem_of_find?_eq_some hf))
    dsimp only
    rw [indexE_ok lines l hmem]
    rfl

/-- C9: the core parse never raises.  The exception-transparent model
`parse_basic_fieldsE`, which makes the Python code's unguarded `lines[0]`
and `lines.index(line)` explicit as `Except` failures, returns `ok` of the
total embedding's record on every input: all indexing is provably in bounds,
the parse terminates, and absent fields come back as `none` / `[]` / zero
confidence rather than as an error. -/
theorem claim_C9 (text : Str) :
    parse_basic_fieldsE text = Except.ok (parse_basic_fields text) := by
  unfold parse_basic_fieldsE parse_basic_fields
  simp only [findSummaryE_ok, parse_education_sectionE_ok, exceptBind_ok]

end Resumify
